import Mathlib

/-!
Verification development for the xcf-monitoring repository.

The repository polls two laboratory instruments and maintains append-only CSV
log files that are re-read ("tailed") by plotting scripts.  This file gives a
shallow embedding of the CSV writer/reader core:

* `addrow` / `append` / `check_header` / the main-loop step of
  `src/lakeshore/poll_model_336.py` and `src/inficon/poll_vgc503.py`;
* `handle_buffer` of `src/inficon/poll_vgc503.py`;
* `gauge_data` (`src/inficon/plot_vgc503.py`) and `temperature_data`
  (`src/lakeshore/plot_model_336.py`), both thin wrappers around
  `pandas.read_csv(...).tail(n)`.

Files are modelled as `List Char` (byte strings of the CSV text), records as
`List (List Char)` (one string per field).  Python `float` / `int` values that
the Lakeshore writer serialises with `str()` are modelled by `PyNum`; numeric
parsing done by pandas is modelled over `ℚ` (Python float-to-decimal text and
back is value-exact for the short decimal forms this repository produces, so ℚ
is an exact model of the round trip).  The pandas CSV dialect is embedded for
the fragment of CSV this repository actually writes: comma-separated fields
over an alphabet free of quotes and separators (the embedding of
`csv.writer`'s minimal quoting is included, and shown to be the identity on
such fields).
-/

namespace XcfMonitoring

/-! ### Generic single-character splitting (Python `str.split(sep)`) -/

/-- Split a character list at every character satisfying `p`, keeping empty
segments, as Python `bytes.split` does for a one-byte separator. -/
def splitP (p : Char → Bool) : List Char → List (List Char)
  | [] => [[]]
  | c :: rest =>
    if p c then [] :: splitP p rest
    else
      match splitP p rest with
      | [] => [[c]]
      | l :: ls => (c :: l) :: ls

/-! ### Decimal digits -/

/-- Numeric value of a decimal digit character, from the character-by-character
numeric scan pandas applies to CSV fields. -/
def digitVal (c : Char) : Option Nat :=
  if c = '0' then some 0 else if c = '1' then some 1 else if c = '2' then some 2
  else if c = '3' then some 3 else if c = '4' then some 4 else if c = '5' then some 5
  else if c = '6' then some 6 else if c = '7' then some 7 else if c = '8' then some 8
  else if c = '9' then some 9 else none

/-- The decimal digit character for a digit value. -/
def digitChar : Nat → Char
  | 0 => '0' | 1 => '1' | 2 => '2' | 3 => '3' | 4 => '4'
  | 5 => '5' | 6 => '6' | 7 => '7' | 8 => '8' | _ => '9'

/-- Scan a run of digit characters most-significant first, accumulating the
value; fails on the first non-digit. -/
def digitsGo (acc : Nat) : List Char → Option Nat
  | [] => some acc
  | c :: rest =>
    match digitVal c with
    | some d => digitsGo (10 * acc + d) rest
    | none => none

/-- Value of a non-empty all-digit string; `none` on the empty string or any
non-digit character. -/
def digitsVal : List Char → Option Nat
  | [] => none
  | cs => digitsGo 0 cs

/-- As `digitsVal` but an empty run counts as zero (used for the integer and
fractional parts around a decimal point, so that both "5." and ".5" parse). -/
def digitsValD : List Char → Option Nat
  | [] => some 0
  | cs => digitsGo 0 cs

/-- Digit loop with an explicit fuel bound (any fuel above the value yields
the digits; structural recursion keeps the function kernel-reducible). -/
def natDigitsRevFuel : Nat → Nat → List Char
  | 0, n => [digitChar n]
  | fuel + 1, n =>
    if n < 10 then [digitChar n]
    else digitChar (n % 10) :: natDigitsRevFuel fuel (n / 10)

/-- Decimal digits of a natural number, least significant first.  Mirrors the
digit loop inside Python's integer formatting. -/
def natDigitsRev (n : Nat) : List Char := natDigitsRevFuel n n

/-- Decimal digits of a natural number, most significant first: the text
`str(n)` Python produces for a non-negative integer. -/
def natDigits (n : Nat) : List Char := (natDigitsRev n).reverse

/-- Text of a Python `int` (`str(i)`). -/
def strInt (i : Int) : List Char :=
  if i < 0 then '-' :: natDigits i.natAbs else natDigits i.natAbs

/-- Left-pad a digit run with zeros to width `k` (as in `datetime`'s
two/four/six digit fields). -/
def padZeros (k : Nat) (ds : List Char) : List Char :=
  List.replicate (k - ds.length) '0' ++ ds

/-! ### CRLF line framing (Python `bytes.split(b'\r\n')`) -/

/-- The CSV line terminator written by `csv.writer` (its default dialect) and
by the VGC503 serial protocol. -/
def crlf : List Char := ['\r', '\n']

/-- Left-to-right split at every (non-overlapping) occurrence of CR LF,
keeping empty segments: Python `buffer.split(b'\r\n')`. -/
def splitCRLF : List Char → List (List Char)
  | [] => [[]]
  | '\r' :: '\n' :: rest => [] :: splitCRLF rest
  | c :: rest =>
    match splitCRLF rest with
    | [] => [[c]]
    | l :: ls => (c :: l) :: ls

/-- Rejoin split segments with CR LF (left inverse of `splitCRLF`). -/
def joinCRLF : List (List Char) → List Char
  | [] => []
  | [x] => x
  | x :: rest => x ++ crlf ++ joinCRLF rest

/-- Whether CR LF occurs in the list: Python `b'\r\n' in buffer`. -/
def hasCRLF : List Char → Bool
  | [] => false
  | '\r' :: '\n' :: _ => true
  | _ :: rest => hasCRLF rest

/-! ### Numeric text: pandas field parsing and Python `str()` serialisation -/

/-- Leading sign of a numeric literal. -/
def parseSign (s : List Char) : Bool × List Char :=
  match s with
  | c :: rest => if c = '-' then (true, rest) else if c = '+' then (false, rest) else (false, s)
  | [] => (false, s)

/-- Unsigned decimal mantissa: digits with at most one decimal point; "5.",
".5" and "5.0" are accepted, "." and "" are not (pandas' float grammar). -/
def parseUnsigned (s : List Char) : Option ℚ :=
  match splitP (fun c => c == '.') s with
  | [ip] => (digitsVal ip).map (fun n => (n : ℚ))
  | [ip, fp] =>
    if ip = [] ∧ fp = [] then none
    else
      match digitsValD ip, digitsValD fp with
      | some i, some f => some ((i : ℚ) + (f : ℚ) / (10 : ℚ) ^ fp.length)
      | _, _ => none
  | _ => none

/-- Signed integer exponent after `e`/`E`. -/
def parseExp (s : List Char) : Option ℤ :=
  match s with
  | c :: rest =>
    if c = '-' then (digitsVal rest).map (fun n => -(n : ℤ))
    else if c = '+' then (digitsVal rest).map (fun n => (n : ℤ))
    else (digitsVal s).map (fun n => (n : ℤ))
  | [] => none

/-- Numeric value of a CSV field as pandas' C parser reads it: optional sign,
decimal mantissa, optional `e`/`E` exponent.  Exact rational value (the model
of the float64 the reader produces; all values in this repository's data are
short decimals, for which the float round trip is value-exact). -/
def parseNum (s : List Char) : Option ℚ :=
  let p := parseSign s
  match splitP (fun c => c == 'e' || c == 'E') p.2 with
  | [m] => (parseUnsigned m).map (fun q => if p.1 then -q else q)
  | [m, ex] =>
    match parseUnsigned m, parseExp ex with
    | some q, some e => some ((if p.1 then -q else q) * (10 : ℚ) ^ e)
    | _, _ => none
  | _ => none

/-- A Python numeric value as the Lakeshore poller holds it before
`csv.writer` stringifies it: an `int` (heater range) or a `float` rendered in
positional decimal notation with `fd` fractional digits.  `dec neg ip fp fd`
denotes ±(ip + fp / 10^fd); `str()` of such a float prints
"ip.<fp padded to fd digits>". -/
inductive PyNum where
  | int (i : ℤ)
  | dec (neg : Bool) (ip fp fd : ℕ)
  deriving DecidableEq

/-- Rational value of a `PyNum`. -/
def pyVal : PyNum → ℚ
  | .int i => (i : ℚ)
  | .dec neg ip fp fd => (if neg then -1 else 1) * ((ip : ℚ) + (fp : ℚ) / (10 : ℚ) ^ fd)

/-- Canonical-form condition under which `strPyNum` is the Python text of the
value: the fractional numerator fits in the declared digit count, and floats
print at least one fractional digit (as Python `str(float)` always does). -/
def pyWF : PyNum → Bool
  | .int _ => true
  | .dec _ _ fp fd => decide (fp < 10 ^ fd ∧ 1 ≤ fd)

/-- The text `str()` produces for a `PyNum` (what `csv.writer.writerow` writes
for each numeric cell). -/
def strPyNum : PyNum → List Char
  | .int i => strInt i
  | .dec neg ip fp fd =>
    (if neg then ['-'] else []) ++ natDigits ip ++ '.' :: padZeros fd (natDigits fp)

/-! ### Timestamps -/

/-- A wall-clock timestamp as `datetime.datetime.now()` captures it. -/
structure Timestamp where
  year : ℕ
  month : ℕ
  day : ℕ
  hour : ℕ
  minute : ℕ
  second : ℕ
  micro : ℕ
  deriving DecidableEq

/-- The text `str(datetime.datetime.now())` writes:
"YYYY-MM-DD HH:MM:SS.ffffff", with the fractional part omitted when the
microsecond field is zero. -/
def strTimestamp (t : Timestamp) : List Char :=
  padZeros 4 (natDigits t.year) ++ '-' :: padZeros 2 (natDigits t.month)
    ++ '-' :: padZeros 2 (natDigits t.day)
    ++ ' ' :: padZeros 2 (natDigits t.hour) ++ ':' :: padZeros 2 (natDigits t.minute)
    ++ ':' :: padZeros 2 (natDigits t.second)
    ++ (if t.micro = 0 then [] else '.' :: padZeros 6 (natDigits t.micro))

/-- Microseconds denoted by a fractional-seconds digit run. -/
def microOfFrac (ds : List Char) : Option ℕ :=
  (digitsVal ds).map
    (fun f => if ds.length ≤ 6 then f * 10 ^ (6 - ds.length) else f / 10 ^ (ds.length - 6))

/-- Assemble and validate a timestamp from its digit runs (the field checks
`pandas.to_datetime` performs; per-month day counts are not modelled). -/
def mkTS (ys ms ds hs ns ss : List Char) (frac : Option (List Char)) : Option Timestamp :=
  match digitsVal ys, digitsVal ms, digitsVal ds, digitsVal hs, digitsVal ns, digitsVal ss with
  | some y, some mo, some da, some h, some mi, some se =>
    match (match frac with | none => some 0 | some fs => microOfFrac fs) with
    | some mic =>
      if 1 ≤ mo ∧ mo ≤ 12 ∧ 1 ≤ da ∧ da ≤ 31 ∧ h ≤ 23 ∧ mi ≤ 59 ∧ se ≤ 59 then
        some ⟨y, mo, da, h, mi, se, mic⟩
      else none
    | none => none
  | _, _, _, _, _, _ => none

/-- Timestamp text as `pandas.to_datetime` reads it (`parse_dates`):
"Y-M-D H:M:S[.f]" with either a space or a `T` between date and time. -/
def parseTimestamp (s : List Char) : Option Timestamp :=
  match splitP (fun c => c == ' ' || c == 'T') s with
  | [d, t] =>
    match splitP (fun c => c == '-') d, splitP (fun c => c == ':') t with
    | [ys, ms, ds], [hs, ns, ss] =>
      match splitP (fun c => c == '.') ss with
      | [sec] => mkTS ys ms ds hs ns sec none
      | [sec, fs] => if fs = [] then none else mkTS ys ms ds hs ns sec (some fs)
      | _ => none
    | _, _ => none
  | _ => none

/-! ### CSV serialisation (`csv.writer`, default dialect) -/

/-- Minimal-quoting trigger of `csv.writer`: a field is quoted iff it contains
the delimiter, the quote character, or a line-break character. -/
def needsQuote (f : List Char) : Bool :=
  f.any (fun c => c == ',' || c == '"' || c == '\r' || c == '\n')

/-- Double every quote character (the escaping inside a quoted field). -/
def escapeQuotes : List Char → List Char
  | [] => []
  | '"' :: rest => '"' :: '"' :: escapeQuotes rest
  | c :: rest => c :: escapeQuotes rest

/-- One serialised CSV field under QUOTE_MINIMAL. -/
def csvField (f : List Char) : List Char :=
  if needsQuote f then '"' :: (escapeQuotes f ++ ['"']) else f

/-- The comma-joined cells of one row (without the terminator). -/
def csvBody : List (List Char) → List Char
  | [] => []
  | [f] => csvField f
  | f :: rest => csvField f ++ ',' :: csvBody rest

/-- One full CSV line as `csv.writer.writerow` emits it: joined cells plus the
default `\r\n` terminator (the files are opened with `newline=''`, so no
further translation happens). -/
def csvLine (r : List (List Char)) : List Char := csvBody r ++ crlf

/-! ### The writers -/

/-- A log file: `none` when the path does not exist, otherwise its content. -/
abbrev LogFile := Option (List Char)

/-- Embeds `append(row, file_path)` of `src/lakeshore/poll_model_336.py`
(and the identical `addrow(row)` of `src/inficon/poll_vgc503.py`): open in
append mode (creating the file if missing), write one CSV row, close. -/
def append (row : List (List Char)) (file : LogFile) : List Char :=
  file.getD [] ++ csvLine row

/-- Embeds `addrow(row)` of `src/inficon/poll_vgc503.py`; same file operation
as `append`, against the gauge log.  No header is ever written here. -/
def addrow (row : List (List Char)) (file : LogFile) : List Char :=
  file.getD [] ++ csvLine row

/-- A sequence of writer invocations against the same path.  With no
invocation at all the file state is untouched — in particular a missing file
stays missing, since only an actual `open(..., 'a')` creates it. -/
def appendAll (rows : List (List (List Char))) (file : LogFile) : LogFile :=
  match rows with
  | [] => file
  | r :: rest => appendAll rest (some (append r file))

/-! ### CSV reading -/

/-- Split one CSV line into fields.  The repository's field alphabet contains
no quote characters, so the quote-handling of `csv.reader`/pandas never
triggers and the split is a plain comma split. -/
def splitComma : List Char → List (List Char) := splitP (fun c => c == ',')

/-- Records as `csv.reader` yields them: lines split at CR LF, a final empty
segment (EOF after a complete line) is not a record, a blank line yields an
empty record, an unterminated final line is still parsed. -/
def csvRows (content : List Char) : List (List (List Char)) :=
  let segs := splitCRLF content
  let segs := match segs.getLast? with
    | some [] => segs.dropLast
    | _ => segs
  segs.map (fun l => if l = [] then ([] : List (List Char)) else splitComma l)

/-- Embeds `check_header(header_row, file_path)` of
`src/lakeshore/poll_model_336.py`: read the file, compare the first CSV row
with the expected header, raise `ValueError` (here: return the pair of the
expected and the found header) on mismatch, return `True` otherwise — also
when the file holds no row at all, since the loop body then never runs. -/
def check_header (header_row : List (List Char)) (content : List Char) :
    Except (List (List Char) × List (List Char)) Bool :=
  match csvRows content with
  | [] => .ok true
  | row :: _ => if header_row = row then .ok true else .error (header_row, row)

/-! ### The Lakeshore writer configuration (`src/lakeshore/poll_model_336.py`) -/

/-- The configurable per-channel enable flags; the checked-in configuration is
`channel_a = channel_b = channel_c = True, channel_d = False`. -/
def stdFlags : List Bool := [true, true, true, false]

/-- channels = [ idx+1 for idx, _ in enumerate(channel_flags) if _ ]. -/
def channels (flags : List Bool) : List ℕ :=
  flags.enum.filterMap (fun p => if p.2 then some (p.1 + 1) else none)

/-- channel_alpha_map = { 1 : 'A', 2 : 'B', 3 : 'C', 4 : 'D' }. -/
def channel_alpha_map (n : ℕ) : Char :=
  if n = 1 then 'A' else if n = 2 then 'B' else if n = 3 then 'C' else 'D'

/-- channels_alpha = [ channel_alpha_map[channel] for channel in channels ]. -/
def channels_alpha (flags : List Bool) : List Char :=
  (channels flags).map channel_alpha_map

/-- temperature_labels = [ 'input_{}'.format(_.lower()) for _ in channels_alpha ]. -/
def temperature_labels (flags : List Bool) : List (List Char) :=
  (channels_alpha flags).map (fun a => "input_".toList ++ [a.toLower])

/-- setpoint_labels = [ 'setpoint_{}'.format(_) for _ in channels ]. -/
def setpoint_labels (flags : List Bool) : List (List Char) :=
  (channels flags).map (fun n => "setpoint_".toList ++ natDigits n)

/-- heater_range_labels = [ 'heater_range_{}'.format(_) for _ in channels ]. -/
def heater_range_labels (flags : List Bool) : List (List Char) :=
  (channels flags).map (fun n => "heater_range_".toList ++ natDigits n)

/-- heater_output_labels = [ 'heater_output_{}'.format(_) for _ in channels ]. -/
def heater_output_labels (flags : List Bool) : List (List Char) :=
  (channels flags).map (fun n => "heater_output_".toList ++ natDigits n)

/-- heater_max_current_labels = [ 'heater_max_current_{}'.format(_) for _ in channels ]. -/
def heater_max_current_labels (flags : List Bool) : List (List Char) :=
  (channels flags).map (fun n => "heater_max_current_".toList ++ natDigits n)

/-- heater_p_labels = [ 'heater_p_{}'.format(_) for _ in channels ]. -/
def heater_p_labels (flags : List Bool) : List (List Char) :=
  (channels flags).map (fun n => "heater_p_".toList ++ natDigits n)

/-- heater_i_labels = [ 'heater_i_{}'.format(_) for _ in channels ]. -/
def heater_i_labels (flags : List Bool) : List (List Char) :=
  (channels flags).map (fun n => "heater_i_".toList ++ natDigits n)

/-- heater_d_labels = [ 'heater_d_{}'.format(_) for _ in channels ]. -/
def heater_d_labels (flags : List Bool) : List (List Char) :=
  (channels flags).map (fun n => "heater_d_".toList ++ natDigits n)

/-- header_row = [ 'datetime' ] + temperature_labels + setpoint_labels + ... -/
def header_row (flags : List Bool) : List (List Char) :=
  "datetime".toList ::
    (temperature_labels flags ++ setpoint_labels flags ++ heater_range_labels flags
      ++ heater_output_labels flags ++ heater_max_current_labels flags
      ++ heater_p_labels flags ++ heater_i_labels flags ++ heater_d_labels flags)

/-- The Model 336 SDK connection, as the poll loop queries it on one tick:
each getter is a pure per-channel reading for that tick. -/
structure Inst where
  celsius : Char → PyNum
  setpoint : ℕ → PyNum
  heaterRange : ℕ → ℤ
  heaterOutput : ℕ → PyNum
  heaterMaxCurrent : ℕ → PyNum
  heaterP : ℕ → PyNum
  heaterI : ℕ → PyNum
  heaterD : ℕ → PyNum

/-- The data row built on one tick of the `poll_model_336.py` main loop:
`[ str(datetime.datetime.now()) ] + temperature + setpoint + heater_range +
heater_output + heater_max_current + heater_p + heater_i + heater_d`, each
group one cell per enabled channel, stringified by `csv.writer`. -/
def dataRow (flags : List Bool) (now : Timestamp) (inst : Inst) : List (List Char) :=
  strTimestamp now ::
    ((channels_alpha flags).map (fun a => strPyNum (inst.celsius a))
      ++ (channels flags).map (fun n => strPyNum (inst.setpoint n))
      ++ (channels flags).map (fun n => strInt (inst.heaterRange n))
      ++ (channels flags).map (fun n => strPyNum (inst.heaterOutput n))
      ++ (channels flags).map (fun n => strPyNum (inst.heaterMaxCurrent n))
      ++ (channels flags).map (fun n => strPyNum (inst.heaterP n))
      ++ (channels flags).map (fun n => strPyNum (inst.heaterI n))
      ++ (channels flags).map (fun n => strPyNum (inst.heaterD n)))

/-- Result of one file-writing step of the `poll_model_336.py` main loop. -/
inductive StepOut where
  | ok (file : List Char)
  | headerErr (file : List Char) (expected found : List (List Char))
  deriving DecidableEq

/-- Embeds lines 114-124 of `src/lakeshore/poll_model_336.py`: create the file
with the header if the path does not exist, run `check_header` unless
`header_ok` is already set, then append the data row.  A `ValueError` from
`check_header` propagates (`headerErr` carries the file content at the raise
point — the append below it never runs). -/
def writeStep (hdr row : List (List Char)) (header_ok : Bool) (file : LogFile) : StepOut :=
  let f1 : List Char :=
    match file with
    | none => append hdr none
    | some c => c
  if header_ok then .ok (f1 ++ csvLine row)
  else
    match check_header hdr f1 with
    | .ok _ => .ok (f1 ++ csvLine row)
    | .error e => .headerErr f1 e.1 e.2

/-- One tick of the poll loop: either the instrument answers, or one of the
SDK calls raises a communication error. -/
inductive Tick where
  | ok (now : Timestamp) (inst : Inst)
  | err

/-- Embeds the `while True` main loop of `src/lakeshore/poll_model_336.py`
over a trace of ticks; returns the final file state and whether the loop is
still alive.  The loop body has no exception handler, so a raising SDK call on
some tick leaves the loop (and the process) with all later ticks unprocessed;
likewise a header mismatch. -/
def runPoll (flags : List Bool) : List Tick → Bool → LogFile → LogFile × Bool
  | [], _, fs => (fs, true)
  | Tick.err :: _, _, fs => (fs, false)
  | Tick.ok now inst :: rest, header_ok, fs =>
    match writeStep (header_row flags) (dataRow flags now inst) header_ok fs with
    | .ok f => runPoll flags rest true (some f)
    | .headerErr f _ _ => (some f, false)

/-! ### The gauge writer thread (`src/inficon/poll_vgc503.py`) -/

/-- Embeds `handle_buffer(buffer)`: split at CR LF; with no terminator present
the whole buffer is returned as the single "complete line" (with empty
leftover), otherwise all but the last segment are the complete lines and the
last segment is the unterminated leftover. -/
def handle_buffer (buffer : List Char) : List (List Char) × List Char :=
  let l := splitCRLF buffer
  if l.length = 1 then (l, [])
  else (l.dropLast, l.getLastD [])

/-! ### The tail readers (pandas `read_csv(...).tail(n)`) -/

/-- The data lines pandas' C parser frames from a file: CR LF separated, blank
lines skipped (`skip_blank_lines`), and a final unterminated fragment is still
a line. -/
def dataLines (content : List Char) : List (List Char) :=
  (splitCRLF content).filter (fun l => l ≠ [])

/-- The errors `pd.read_csv` raises on the paths the plot scripts exercise:
`FileNotFoundError` when the log file was never created,
`pandas.errors.EmptyDataError` ("No columns to parse from file") when it
exists but holds no line, and the tokenizer's `ParserError` when a data line
has more fields than the established column set. -/
inductive ReadError where
  | fileNotFound
  | emptyData
  | parserError
  deriving DecidableEq

/-- pandas NaN-fills a data row that is shorter than the frame's column set;
the empty field is exactly its missing-value marker, so padding with empty
cells models that fill. -/
def padRow (w : ℕ) (r : List (List Char)) : List (List Char) :=
  r ++ List.replicate (w - r.length) ([] : List Char)

/-- `DataFrame.tail(n)`: the last `n` rows, all of them when fewer. -/
def tailN (n : ℕ) (l : List α) : List α := l.drop (l.length - n)

/-- A parsed cell of the resulting data frame: a parsed timestamp, a float64
(modelled exactly over ℚ), a missing value (NaN/NaT), or — when a column
could not be converted — the original text. -/
inductive Cell where
  | dt (t : Timestamp)
  | num (q : ℚ)
  | nan
  | str (s : List Char)
  deriving DecidableEq

/-- The default pandas NA markers that occur in this repository's data (an
empty field, plus the common NaN spellings). -/
def naStrings : List (List Char) :=
  [[], "nan".toList, "NaN".toList, "NA".toList, "null".toList]

/-- Whether a raw field is read as missing. -/
def naStr (f : List Char) : Bool := decide (f ∈ naStrings)

/-- A field a numeric column conversion accepts: missing or numeric. -/
def fieldOK (f : List Char) : Bool := naStr f || (parseNum f).isSome

/-- pandas converts column `j` to float64 iff every field of the column (an
absent field of a short row reads as missing) is numeric or missing. -/
def colOK (rows : List (List (List Char))) (j : ℕ) : Bool :=
  rows.all (fun r => fieldOK (r.getD j []))

/-- A field `to_datetime` accepts: missing or a parseable timestamp. -/
def dtFieldOK (f : List Char) : Bool := naStr f || (parseTimestamp f).isSome

/-- `parse_dates` converts the datetime column iff every entry parses. -/
def dtColOK (rows : List (List (List Char))) (dtIdx : ℕ) : Bool :=
  rows.all (fun r => dtFieldOK (r.getD dtIdx []))

/-- Convert one cell of a column: missing markers become NaN first; a column
that failed conversion keeps its text; otherwise the timestamp / number. -/
def convCol (isDT ok : Bool) (f : List Char) : Cell :=
  if naStr f then Cell.nan
  else if ok = false then Cell.str f
  else if isDT then
    match parseTimestamp f with
    | some t => Cell.dt t
    | none => Cell.nan
  else
    match parseNum f with
    | some q => Cell.num q
    | none => Cell.nan

/-- Convert one row, cell by cell, using its column's conversion outcome;
`j` is the index of the first listed field.  The readers hand it rows already
padded to the frame's column width (`padRow`), mirroring pandas' NaN-fill of
short rows, so the output always has the frame's width. -/
def convRow (dtIdx : ℕ) (rows : List (List (List Char))) : ℕ → List (List Char) → List Cell
  | _, [] => []
  | j, f :: rest =>
    (if j = dtIdx then convCol true (dtColOK rows dtIdx) f
     else convCol false (colOK rows j) f) :: convRow dtIdx rows (j + 1) rest

/-- The column names `gauge_data` passes to `read_csv` — because `names=` is
given, the file is read as having no header line, and the `datetime` column
to date-parse is column 0. -/
def gauge_names : List (List Char) :=
  ["datetime".toList, "ch1".toList, "ch2".toList, "ch3".toList]

/-- Embeds `gauge_data(filename, n)` of `src/inficon/plot_vgc503.py`:
`pd.read_csv(filename, names=names, parse_dates=['datetime']).tail(n)`.
A missing file raises FileNotFoundError at `open`; a file without a single
line raises EmptyDataError.  With `names=` every line is a data row and the
column set is the four `gauge_names`; rows shorter than four fields are
NaN-filled, and a line with more fields raises the tokenizer error pandas
reports when a line exceeds the established width.  (The one unmodelled
corner: if the very first line were already wider than `names`, pandas would
instead promote the leading fields to the frame's index; no file this
repository's writer produces, and no claim, reaches that case.)  The whole
file is parsed, then the last `n` rows are kept. -/
def gauge_data (file : LogFile) (n : ℕ) : Except ReadError (List (List Cell)) :=
  match file with
  | none => .error .fileNotFound
  | some content =>
    let lines := dataLines content
    if lines.isEmpty then .error .emptyData
    else
      let raw := lines.map splitComma
      if raw.any (fun r => 4 < r.length) then .error .parserError
      else
        let rows := raw.map (padRow 4)
        .ok (tailN n (rows.map (convRow 0 rows 0)))

/-- Embeds `temperature_data(filename, n)` of
`src/lakeshore/plot_model_336.py`:
`pd.read_csv(filename, parse_dates=['datetime']).tail(n)`.  A missing file
raises FileNotFoundError; a file without a single line raises
EmptyDataError.  The first line is consumed as the header and fixes the
column width; the `datetime` column is found by name; data rows shorter than
the header are NaN-filled, and a longer one raises the tokenizer's
ParserError.  The whole file is parsed, then the last `n` rows are kept. -/
def temperature_data (file : LogFile) (n : ℕ) : Except ReadError (List (List Cell)) :=
  match file with
  | none => .error .fileNotFound
  | some content =>
    match dataLines content with
    | [] => .error .emptyData
    | hline :: rest =>
      let hfields := splitComma hline
      let dtIdx := hfields.findIdx (fun f => f = "datetime".toList)
      let raw := rest.map splitComma
      if raw.any (fun r => hfields.length < r.length) then .error .parserError
      else
        let rows := raw.map (padRow hfields.length)
        .ok (tailN n (rows.map (convRow dtIdx rows 0)))

/-! ### Well-formedness of raw rows and expected parses (for the statements) -/

/-- A field free of the characters that would trigger CSV quoting. -/
def cleanF (f : List Char) : Bool := !needsQuote f

/-- A row whose cells survive CSV serialisation verbatim: no quoting-trigger
characters anywhere and a non-empty first cell (every header and data row this
repository writes is of this shape). -/
def cleanRow : List (List Char) → Bool
  | [] => false
  | f0 :: rest => !f0.isEmpty && cleanF f0 && rest.all cleanF

/-- A well-formed raw data row: a parseable timestamp first, then numeric
channel fields, all free of CSV metacharacters. -/
def wfRow : List (List Char) → Bool
  | [] => false
  | f0 :: rest =>
    (parseTimestamp f0).isSome && cleanF f0
      && rest.all (fun f => (parseNum f).isSome && cleanF f)

/-- A well-formed sequence of raw data rows. -/
def wfFile (recs : List (List (List Char))) : Bool := recs.all wfRow

/-- The record the tail readers are expected to produce from a well-formed raw
row: parsed timestamp, then parsed numbers. -/
def expRow : List (List Char) → List Cell
  | [] => []
  | f0 :: rest =>
    Cell.dt ((parseTimestamp f0).getD ⟨0, 0, 0, 0, 0, 0, 0⟩)
      :: rest.map (fun f => Cell.num ((parseNum f).getD 0))

/-- The record expected for a well-formed raw row inside a frame of width
`w`: the parsed cells followed by the NaN cells pandas fills a short row up
with. -/
def expRowPad (w : ℕ) (r : List (List Char)) : List Cell :=
  expRow r ++ List.replicate (w - r.length) Cell.nan

/-- A logical record before serialisation: capture time plus numeric readings. -/
abbrev RecordV := Timestamp × List PyNum

/-- Serialise a logical record to the raw CSV cells the writers emit. -/
def serRec (p : RecordV) : List (List Char) :=
  strTimestamp p.1 :: p.2.map strPyNum

/-- The parsed record the readers are expected to return for a written one. -/
def expRecV (p : RecordV) : List Cell :=
  Cell.dt p.1 :: p.2.map (fun v => Cell.num (pyVal v))

/-- Validity of a timestamp value as `datetime.now()` produces it (the ranges
`parseTimestamp` checks, microseconds below one second). -/
def tsWF (t : Timestamp) : Bool :=
  decide (1 ≤ t.month ∧ t.month ≤ 12 ∧ 1 ≤ t.day ∧ t.day ≤ 31
    ∧ t.hour ≤ 23 ∧ t.minute ≤ 59 ∧ t.second ≤ 59 ∧ t.micro < 10 ^ 6)

/-- Well-formed logical records: valid capture times, canonical numerals. -/
def wfRecs (recs : List RecordV) : Bool :=
  recs.all (fun p => tsWF p.1 && p.2.all pyWF)

/-! ### Concrete scenario files (fixtures for the specification's scenarios) -/

/-- A gauge log whose last line was cut mid-row: one complete CR LF terminated
row followed by an unterminated two-field fragment. -/
def scenarioFragFile : List Char :=
  "2024-01-01 00:00:00,1.0e-3,2.0e-3,3.0e-3\r\n2024-01-01 00:00:01,1.1".toList

/-- A gauge log holding one well-formed row, one row whose first channel field
is the non-numeric text NaNtext, and one row with an empty second channel
field. -/
def scenarioNaNFile : List Char :=
  ("2024-01-01T00:00:01,1.0e-3,2.0e-3,3.0e-3\r\n"
    ++ "2024-01-01T00:00:02,NaNtext,2.2e-3,3.2e-3\r\n"
    ++ "2024-01-01T00:00:03,1.3e-3,,3.3e-3\r\n").toList

/-! ## Lemmas about the splitters -/

theorem splitP_ne_nil (p : Char → Bool) (xs : List Char) : splitP p xs ≠ [] := by
  induction xs with
  | nil => simp [splitP]
  | cons c rest ih =>
    simp only [splitP]
    split
    · simp
    · match h : splitP p rest with
      | [] => exact absurd h ih
      | l :: ls => simp

theorem splitP_cons_sep (p : Char → Bool) (c : Char) (rest : List Char) (hc : p c = true) :
    splitP p (c :: rest) = [] :: splitP p rest := by
  simp [splitP, hc]

theorem splitP_cons_not_sep (p : Char → Bool) (c : Char) (rest : List Char) (hc : p c = false) :
    splitP p (c :: rest) =
      ((c :: (splitP p rest).headD []) :: (splitP p rest).tail) := by
  simp only [splitP, hc]
  match h : splitP p rest with
  | [] => exact absurd h (splitP_ne_nil p rest)
  | l :: ls => simp

theorem splitP_no_sep (p : Char → Bool) (l : List Char) (h : ∀ c ∈ l, p c = false) :
    splitP p l = [l] := by
  induction l with
  | nil => rfl
  | cons c rest ih =>
    rw [splitP_cons_not_sep p c rest (h c (by simp))]
    rw [ih (fun x hx => h x (by simp [hx]))]
    rfl

theorem splitP_append_sep (p : Char → Bool) (l : List Char) (c : Char) (rest : List Char)
    (hl : ∀ x ∈ l, p x = false) (hc : p c = true) :
    splitP p (l ++ c :: rest) = l :: splitP p rest := by
  induction l with
  | nil => simpa using splitP_cons_sep p c rest hc
  | cons a l' ih =>
    have ha : p a = false := hl a (by simp)
    rw [List.cons_append, splitP_cons_not_sep p a _ ha]
    rw [ih (fun x hx => hl x (by simp [hx]))]
    rfl

theorem splitCRLF_ne_nil (xs : List Char) : splitCRLF xs ≠ [] := by
  induction xs using splitCRLF.induct with
  | case1 => simp [splitCRLF]
  | case2 rest ih => simp [splitCRLF]
  | case3 c rest hne heq ih => exact absurd heq ih
  | case4 c rest hne l ls heq ih => simp [splitCRLF.eq_3 c rest hne, heq]

theorem splitCRLF_cons_other (c : Char) (rest : List Char)
    (hne : ∀ t : List Char, c = '\r' → rest = '\n' :: t → False) :
    splitCRLF (c :: rest) = (c :: (splitCRLF rest).headD []) :: (splitCRLF rest).tail := by
  rw [splitCRLF.eq_3 c rest hne]
  match h : splitCRLF rest with
  | [] => exact absurd h (splitCRLF_ne_nil rest)
  | l :: ls => simp

theorem splitCRLF_no_sep (l : List Char) (h : hasCRLF l = false) : splitCRLF l = [l] := by
  induction l using splitCRLF.induct with
  | case1 => rfl
  | case2 rest ih => simp [hasCRLF] at h
  | case3 c rest hne heq ih => exact absurd heq (splitCRLF_ne_nil rest)
  | case4 c rest hne ll ls heq ih =>
    rw [hasCRLF.eq_3 c rest hne] at h
    rw [splitCRLF_cons_other c rest hne, ih h]
    rfl

theorem splitCRLF_append_sep (l rest : List Char) (h : hasCRLF l = false) :
    splitCRLF (l ++ '\r' :: '\n' :: rest) = l :: splitCRLF rest := by
  induction l using splitCRLF.induct with
  | case1 => simp [splitCRLF]
  | case2 tl ih => simp [hasCRLF] at h
  | case3 c tl hne heq ih => exact absurd heq (splitCRLF_ne_nil tl)
  | case4 c tl hne ll ls heq ih =>
    rw [hasCRLF.eq_3 c tl hne] at h
    have ihr := ih h
    have hne2 : ∀ t : List Char, c = '\r' → tl ++ '\r' :: '\n' :: rest = '\n' :: t → False := by
      intro t hc ht
      match tl, ht with
      | [], ht => exact absurd (by injection ht : ('\r' : Char) = '\n') (by decide)
      | a :: tl', ht =>
        have : a = '\n' := by injection ht
        exact hne tl' hc (by rw [this]) |>.elim
    rw [List.cons_append, splitCRLF_cons_other c _ hne2, ihr]
    simp

theorem splitCRLF_headD_prefix (xs : List Char) : (splitCRLF xs).headD [] <+: xs := by
  induction xs using splitCRLF.induct with
  | case1 => simp [splitCRLF]
  | case2 rest ih =>
    rw [show splitCRLF ('\r' :: '\n' :: rest) = [] :: splitCRLF rest from rfl]
    simp
  | case3 c rest hne heq ih => exact absurd heq (splitCRLF_ne_nil rest)
  | case4 c rest hne ll ls heq ih =>
    rw [splitCRLF_cons_other c rest hne]
    obtain ⟨t, ht⟩ := ih
    exact ⟨t, by simpa using ht⟩

theorem hasCRLF_of_mem_splitCRLF (xs : List Char) :
    ∀ l ∈ splitCRLF xs, hasCRLF l = false := by
  induction xs using splitCRLF.induct with
  | case1 => intro l h; simp [splitCRLF] at h; simp [h, hasCRLF]
  | case2 rest ih =>
    intro l h
    rw [show splitCRLF ('\r' :: '\n' :: rest) = [] :: splitCRLF rest from rfl] at h
    rcases List.mem_cons.mp h with rfl | h2
    · rfl
    · exact ih l h2
  | case3 c rest hne heq ih => exact absurd heq (splitCRLF_ne_nil rest)
  | case4 c rest hne ll ls heq ih =>
    intro l h
    rw [splitCRLF.eq_3 c rest hne, heq] at h
    rcases List.mem_cons.mp h with rfl | h2
    · have hll : hasCRLF ll = false := ih ll (by rw [heq]; exact List.mem_cons_self _ _)
      have hcll : ∀ t : List Char, c = '\r' → ll = '\n' :: t → False := by
        intro t hc hlt
        have hpre : ll <+: rest := by
          have := splitCRLF_headD_prefix rest
          rwa [heq, List.headD_cons] at this
        obtain ⟨t', ht'⟩ := hpre
        rw [hlt] at ht'
        exact hne (t ++ t') hc (by rw [← ht']; simp)
      rw [hasCRLF.eq_3 c ll hcll]
      exact hll
    · exact ih l (by rw [heq]; exact List.mem_cons_of_mem _ h2)

theorem splitCRLF_length_ge_two (xs : List Char) (h : hasCRLF xs = true) :
    2 ≤ (splitCRLF xs).length := by
  induction xs using splitCRLF.induct with
  | case1 => simp [hasCRLF] at h
  | case2 rest ih =>
    rw [show splitCRLF ('\r' :: '\n' :: rest) = [] :: splitCRLF rest from rfl]
    have := splitCRLF_ne_nil rest
    simp only [List.length_cons]
    have : 1 ≤ (splitCRLF rest).length := List.length_pos.mpr (splitCRLF_ne_nil rest)
    omega
  | case3 c rest hne heq ih => exact absurd heq (splitCRLF_ne_nil rest)
  | case4 c rest hne ll ls heq ih =>
    rw [hasCRLF.eq_3 c rest hne] at h
    rw [splitCRLF.eq_3 c rest hne, heq]
    have := ih h
    rw [heq] at this
    simpa using this

theorem joinCRLF_splitCRLF (xs : List Char) : joinCRLF (splitCRLF xs) = xs := by
  induction xs using splitCRLF.induct with
  | case1 => rfl
  | case2 rest ih =>
    rw [show splitCRLF ('\r' :: '\n' :: rest) = [] :: splitCRLF rest from rfl]
    match h : splitCRLF rest with
    | [] => exact absurd h (splitCRLF_ne_nil rest)
    | l :: ls =>
      rw [h] at ih
      rw [show joinCRLF ([] :: l :: ls) = [] ++ crlf ++ joinCRLF (l :: ls) from rfl, ih]
      rfl
  | case3 c rest hne heq ih => exact absurd heq (splitCRLF_ne_nil rest)
  | case4 c rest hne ll ls heq ih =>
    rw [splitCRLF.eq_3 c rest hne, heq]
    rw [heq] at ih
    match ls, ih with
    | [], ih =>
      rw [show joinCRLF [c :: ll] = c :: ll from rfl]
      rw [show joinCRLF [ll] = ll from rfl] at ih
      rw [ih]
    | l2 :: ls', ih =>
      rw [show joinCRLF ((c :: ll) :: l2 :: ls') = (c :: ll) ++ crlf ++ joinCRLF (l2 :: ls') from rfl]
      rw [show joinCRLF (ll :: l2 :: ls') = ll ++ crlf ++ joinCRLF (l2 :: ls') from rfl] at ih
      rw [List.cons_append, List.cons_append, ih]

theorem joinCRLF_eq_dropLast_getLast (l : List (List Char)) (h : l ≠ []) :
    joinCRLF l = ((l.dropLast.map (fun x => x ++ crlf)).flatten) ++ l.getLastD [] := by
  induction l with
  | nil => exact absurd rfl h
  | cons x rest ih =>
    match rest with
    | [] => simp [joinCRLF]
    | y :: rest' =>
      rw [show joinCRLF (x :: y :: rest') = x ++ crlf ++ joinCRLF (y :: rest') from rfl]
      rw [ih (by simp)]
      simp [List.append_assoc]

/-- Framing of a file written as complete CR LF terminated lines followed by a
possibly empty unterminated fragment. -/
theorem splitCRLF_lines (ls : List (List Char)) (frag : List Char)
    (h : ∀ l ∈ ls, hasCRLF l = false) :
    splitCRLF ((ls.map (fun x => x ++ crlf)).flatten ++ frag) = ls ++ splitCRLF frag := by
  induction ls with
  | nil => simp
  | cons x rest ih =>
    have hx : hasCRLF x = false := h x (by simp)
    simp only [List.map_cons, List.flatten_cons, List.append_assoc, List.cons_append]
    rw [show crlf ++ ((rest.map (fun x => x ++ crlf)).flatten ++ frag)
          = '\r' :: '\n' :: ((rest.map (fun x => x ++ crlf)).flatten ++ frag) from rfl]
    rw [splitCRLF_append_sep _ _ hx, ih (fun l hl => h l (by simp [hl]))]

/-! ## Lemmas about decimal digits -/

theorem digitVal_digitChar (d : ℕ) (h : d < 10) : digitVal (digitChar d) = some d := by
  interval_cases d <;> rfl

theorem natDigitsRevFuel_congr (f1 : ℕ) : ∀ (f2 n : ℕ), n ≤ f1 → n ≤ f2 →
    natDigitsRevFuel f1 n = natDigitsRevFuel f2 n := by
  induction f1 with
  | zero =>
    intro f2 n h1 h2
    have : n = 0 := by omega
    subst this
    cases f2 with
    | zero => rfl
    | succ f2' => simp [natDigitsRevFuel]
  | succ f1' ih =>
    intro f2 n h1 h2
    cases f2 with
    | zero =>
      have : n = 0 := by omega
      subst this
      simp [natDigitsRevFuel]
    | succ f2' =>
      simp only [natDigitsRevFuel]
      split
      · rfl
      · next hge =>
        rw [ih f2' (n / 10) (by omega) (by omega)]

theorem natDigitsRev_eq (n : ℕ) :
    natDigitsRev n = if n < 10 then [digitChar n] else digitChar (n % 10) :: natDigitsRev (n / 10) := by
  unfold natDigitsRev
  cases n with
  | zero => simp [natDigitsRevFuel]
  | succ m =>
    simp only [natDigitsRevFuel]
    split
    · rfl
    · next hge =>
      rw [natDigitsRevFuel_congr m ((m + 1) / 10) ((m + 1) / 10) (by omega) (by omega)]

/-- Every character a digit scan accepts is one of the ten digit characters,
hence distinct from all separator and sign characters. -/
theorem digitVal_isSome_mem (c : Char) (h : (digitVal c).isSome = true) :
    c ∈ ['0', '1', '2', '3', '4', '5', '6', '7', '8', '9'] := by
  unfold digitVal at h
  split_ifs at h with h0 h1 h2 h3 h4 h5 h6 h7 h8 h9 <;> simp_all

theorem mem_natDigitsRev (n : ℕ) : ∀ c ∈ natDigitsRev n, (digitVal c).isSome = true := by
  induction n using Nat.strong_induction_on with
  | _ n ih =>
    intro c hc
    rw [natDigitsRev_eq] at hc
    split at hc
    · next h =>
      simp only [List.mem_singleton] at hc
      rw [hc, digitVal_digitChar n h]
      rfl
    · next h =>
      rcases List.mem_cons.mp hc with rfl | h2
      · rw [digitVal_digitChar (n % 10) (Nat.mod_lt n (by omega))]
        rfl
      · exact ih (n / 10) (Nat.div_lt_self (by omega) (by omega)) c h2

theorem mem_natDigits (n : ℕ) : ∀ c ∈ natDigits n, (digitVal c).isSome = true := by
  intro c hc
  exact mem_natDigitsRev n c (List.mem_reverse.mp hc)

theorem natDigitsRev_ne_nil (n : ℕ) : natDigitsRev n ≠ [] := by
  rw [natDigitsRev_eq]
  split <;> simp

theorem natDigits_ne_nil (n : ℕ) : natDigits n ≠ [] := by
  unfold natDigits
  simpa using natDigitsRev_ne_nil n

theorem digitsGo_append (a : ℕ) (xs ys : List Char) :
    digitsGo a (xs ++ ys) =
      match digitsGo a xs with
      | some m => digitsGo m ys
      | none => none := by
  induction xs generalizing a with
  | nil => rfl
  | cons c rest ih =>
    simp only [List.cons_append, digitsGo]
    match digitVal c with
    | some d => exact ih (10 * a + d)
    | none => rfl

theorem digitsGo_natDigits (n : ℕ) (a : ℕ) :
    digitsGo a (natDigits n) = some (a * 10 ^ (natDigits n).length + n) := by
  induction n using Nat.strong_induction_on generalizing a with
  | _ n ih =>
    unfold natDigits
    rw [natDigitsRev_eq]
    split
    · next h =>
      simp only [List.reverse_singleton, digitsGo, digitVal_digitChar n h, List.length_singleton]
      congr 2
      ring
    · next h =>
      simp only [List.reverse_cons]
      rw [digitsGo_append]
      have ihd := ih (n / 10) (Nat.div_lt_self (by omega) (by omega)) a
      unfold natDigits at ihd
      rw [ihd]
      simp only [digitsGo, digitVal_digitChar (n % 10) (Nat.mod_lt n (by omega))]
      congr 1
      have hlen : ((natDigitsRev (n / 10)).reverse ++ [digitChar (n % 10)]).length
          = (natDigitsRev (n / 10)).reverse.length + 1 := by simp
      rw [hlen, pow_succ]
      have hsw : a * (10 ^ (natDigitsRev (n / 10)).reverse.length * 10)
          = 10 * (a * 10 ^ (natDigitsRev (n / 10)).reverse.length) := by ring
      rw [hsw]
      generalize a * 10 ^ (natDigitsRev (n / 10)).reverse.length = b
      omega

theorem digitsVal_natDigits (n : ℕ) : digitsVal (natDigits n) = some n := by
  have h := natDigits_ne_nil n
  match hh : natDigits n with
  | [] => exact absurd hh h
  | c :: rest =>
    rw [show digitsVal (c :: rest) = digitsGo 0 (c :: rest) from rfl, ← hh,
      digitsGo_natDigits n 0]
    simp

theorem digitsGo_replicate_zero (a z : ℕ) :
    digitsGo a (List.replicate z '0') = some (a * 10 ^ z) := by
  induction z generalizing a with
  | zero => simp [digitsGo]
  | succ z ih =>
    rw [List.replicate_succ]
    rw [show digitsGo a ('0' :: List.replicate z '0')
          = digitsGo (10 * a + 0) (List.replicate z '0') from rfl]
    rw [ih (10 * a + 0)]
    congr 1
    ring

theorem digitsVal_padZeros (k n : ℕ) : digitsVal (padZeros k (natDigits n)) = some n := by
  unfold padZeros
  have hne : List.replicate (k - (natDigits n).length) '0' ++ natDigits n ≠ [] := by
    simp [natDigits_ne_nil n]
  match hh : List.replicate (k - (natDigits n).length) '0' ++ natDigits n with
  | [] => exact absurd hh hne
  | c :: rest =>
    rw [show digitsVal (c :: rest) = digitsGo 0 (c :: rest) from rfl, ← hh]
    rw [digitsGo_append, digitsGo_replicate_zero 0]
    simp only [Nat.zero_mul]
    rw [digitsGo_natDigits n 0]
    simp

theorem natDigitsRev_length_le (n k : ℕ) (h : n < 10 ^ k) (hk : 1 ≤ k) :
    (natDigitsRev n).length ≤ k := by
  induction n using Nat.strong_induction_on generalizing k with
  | _ n ih =>
    rw [natDigitsRev_eq]
    split
    · next h10 => simpa using hk
    · next h10 =>
      simp only [List.length_cons]
      have hk2 : 2 ≤ k := by
        by_contra hlt
        have : k = 1 := by omega
        rw [this] at h
        omega
      have hdiv : n / 10 < 10 ^ (k - 1) := by
        have hpow : 10 ^ k = 10 ^ (k - 1) * 10 := by
          rw [← pow_succ]
          congr 1
          omega
        rw [hpow] at h
        generalize hg : (10 : ℕ) ^ (k - 1) = t at h ⊢
        omega
      have hrec := ih (n / 10) (Nat.div_lt_self (by omega) (by omega)) (k - 1) hdiv (by omega)
      omega

theorem natDigits_length_le (n k : ℕ) (h : n < 10 ^ k) (hk : 1 ≤ k) :
    (natDigits n).length ≤ k := by
  unfold natDigits
  rw [List.length_reverse]
  exact natDigitsRev_length_le n k h hk

theorem padZeros_length (k : ℕ) (ds : List Char) :
    (padZeros k ds).length = max k ds.length := by
  unfold padZeros
  simp [List.length_replicate]
  omega

/-! ## Character classes of serialised numbers -/

theorem digit_char_facts (c : Char) (h : (digitVal c).isSome = true) :
    (c == '.') = false ∧ (c == 'e' || c == 'E') = false ∧ (c == ',') = false
      ∧ (c == ' ' || c == 'T') = false ∧ (c == '-') = false ∧ (c == ':') = false
      ∧ c ≠ '-' ∧ c ≠ '+'
      ∧ (c == ',' || c == '"' || c == '\r' || c == '\n') = false := by
  have hm := digitVal_isSome_mem c h
  fin_cases hm <;> exact ⟨rfl, rfl, rfl, rfl, rfl, rfl, by decide, by decide, rfl⟩

theorem digitsValD_of_ne_nil (cs : List Char) (h : cs ≠ []) : digitsValD cs = digitsVal cs := by
  cases cs with
  | nil => exact absurd rfl h
  | cons c rest => rfl

theorem mem_padZeros (k : ℕ) (ds : List Char) (c : Char) (h : c ∈ padZeros k ds) :
    c = '0' ∨ c ∈ ds := by
  unfold padZeros at h
  rcases List.mem_append.mp h with h1 | h2
  · exact Or.inl (List.eq_of_mem_replicate h1)
  · exact Or.inr h2

theorem mem_padZeros_natDigits (k n : ℕ) (c : Char) (h : c ∈ padZeros k (natDigits n)) :
    (digitVal c).isSome = true := by
  rcases mem_padZeros k (natDigits n) c h with rfl | h2
  · rfl
  · exact mem_natDigits n c h2

theorem padZeros_ne_nil (k n : ℕ) : padZeros k (natDigits n) ≠ [] := by
  unfold padZeros
  simp [natDigits_ne_nil n]

theorem parseSign_no_sign (s : List Char)
    (h : ∀ (c : Char) (t : List Char), s = c :: t → c ≠ '-' ∧ c ≠ '+') :
    parseSign s = (false, s) := by
  cases s with
  | nil => rfl
  | cons c t =>
    have := h c t rfl
    show (if c = '-' then ((true : Bool), t) else if c = '+' then ((false : Bool), t)
        else ((false : Bool), c :: t)) = ((false : Bool), c :: t)
    rw [if_neg this.1, if_neg this.2]

/-! ## Round trips: Python numeric text through the pandas parser -/

theorem parseNum_natDigits (n : ℕ) : parseNum (natDigits n) = some ((n : ℚ)) := by
  have hdig := mem_natDigits n
  have hsign : parseSign (natDigits n) = (false, natDigits n) := by
    apply parseSign_no_sign
    intro c t hct
    have : c ∈ natDigits n := by rw [hct]; simp
    have := digit_char_facts c (hdig c this)
    exact ⟨this.2.2.2.2.2.2.1, this.2.2.2.2.2.2.2.1⟩
  have hE : splitP (fun c => c == 'e' || c == 'E') (natDigits n) = [natDigits n] :=
    splitP_no_sep _ _ (fun c hc => (digit_char_facts c (hdig c hc)).2.1)
  have hDot : splitP (fun c => c == '.') (natDigits n) = [natDigits n] :=
    splitP_no_sep _ _ (fun c hc => (digit_char_facts c (hdig c hc)).1)
  simp only [parseNum, hsign, hE]
  simp only [parseUnsigned, hDot, digitsVal_natDigits n]
  rfl

theorem parseNum_strInt (i : ℤ) : parseNum (strInt i) = some ((i : ℚ)) := by
  unfold strInt
  split
  · next hneg =>
    have hdig := mem_natDigits i.natAbs
    have hE : splitP (fun c => c == 'e' || c == 'E') (natDigits i.natAbs) = [natDigits i.natAbs] :=
      splitP_no_sep _ _ (fun c hc => (digit_char_facts c (hdig c hc)).2.1)
    have hDot : splitP (fun c => c == '.') (natDigits i.natAbs) = [natDigits i.natAbs] :=
      splitP_no_sep _ _ (fun c hc => (digit_char_facts c (hdig c hc)).1)
    have hsign : parseSign ('-' :: natDigits i.natAbs) = (true, natDigits i.natAbs) := by
      show (if ('-' : Char) = '-' then ((true : Bool), natDigits i.natAbs)
          else if ('-' : Char) = '+' then ((false : Bool), natDigits i.natAbs)
          else ((false : Bool), '-' :: natDigits i.natAbs)) = ((true : Bool), natDigits i.natAbs)
      rw [if_pos rfl]
    simp only [parseNum, hsign, hE]
    simp only [parseUnsigned, hDot, digitsVal_natDigits i.natAbs]
    have hq : ((i.natAbs : ℕ) : ℚ) = -(i : ℚ) := by
      rw [Int.cast_natAbs, abs_of_neg hneg]
      push_cast
      ring
    simp [hq]
  · next hneg =>
    rw [parseNum_natDigits i.natAbs]
    have hq : ((i.natAbs : ℕ) : ℚ) = (i : ℚ) := by
      rw [Int.cast_natAbs, abs_of_nonneg (le_of_not_lt hneg)]
    rw [hq]

theorem parseNum_strPyNum (v : PyNum) (h : pyWF v = true) :
    parseNum (strPyNum v) = some (pyVal v) := by
  match v with
  | .int i => exact parseNum_strInt i
  | .dec neg ip fp fd =>
    have hwf : fp < 10 ^ fd ∧ 1 ≤ fd := by simpa [pyWF] using h
    have hdigip := mem_natDigits ip
    have hpad := mem_padZeros_natDigits fd fp
    set body := natDigits ip ++ '.' :: padZeros fd (natDigits fp) with hbody
    have hbodyE : splitP (fun c => c == 'e' || c == 'E') body = [body] := by
      apply splitP_no_sep
      intro c hc
      rw [hbody] at hc
      rcases List.mem_append.mp hc with h1 | h2
      · exact (digit_char_facts c (hdigip c h1)).2.1
      · rcases List.mem_cons.mp h2 with rfl | h3
        · rfl
        · exact (digit_char_facts c (hpad c h3)).2.1
    have hbodyDot : splitP (fun c => c == '.') body
        = [natDigits ip, padZeros fd (natDigits fp)] := by
      rw [hbody]
      rw [splitP_append_sep (fun c => c == '.') (natDigits ip) '.' (padZeros fd (natDigits fp))
        (fun c hc => (digit_char_facts c (hdigip c hc)).1) rfl]
      rw [splitP_no_sep _ _ (fun c hc => (digit_char_facts c (hpad c hc)).1)]
    have hval : parseUnsigned body = some ((ip : ℚ) + (fp : ℚ) / (10 : ℚ) ^ fd) := by
      simp only [parseUnsigned, hbodyDot]
      rw [if_neg (by simp [natDigits_ne_nil ip])]
      rw [digitsValD_of_ne_nil _ (natDigits_ne_nil ip),
        digitsValD_of_ne_nil _ (padZeros_ne_nil fd fp)]
      rw [digitsVal_natDigits ip, digitsVal_padZeros fd fp]
      have hlen : (padZeros fd (natDigits fp)).length = fd := by
        rw [padZeros_length]
        have := natDigits_length_le fp fd hwf.1 hwf.2
        omega
      rw [hlen]
    match neg with
    | false =>
      have hsign : parseSign body = (false, body) := by
        apply parseSign_no_sign
        intro c t hct
        have hcm : c ∈ natDigits ip := by
          have hne := natDigits_ne_nil ip
          rw [hbody] at hct
          cases hd : natDigits ip with
          | nil => exact absurd hd hne
          | cons a s =>
            rw [hd] at hct
            simp only [List.cons_append] at hct
            have hca : c = a := by
              injection hct with h1 h2
              exact h1.symm
            rw [hca]
            exact List.mem_cons_self a s
        have := digit_char_facts c (hdigip c hcm)
        exact ⟨this.2.2.2.2.2.2.1, this.2.2.2.2.2.2.2.1⟩
      show parseNum body = some (pyVal (PyNum.dec false ip fp fd))
      simp only [parseNum, hsign, hbodyE, hval]
      simp [pyVal]
    | true =>
      have hsign : parseSign ('-' :: body) = (true, body) := by
        show (if ('-' : Char) = '-' then ((true : Bool), body)
            else if ('-' : Char) = '+' then ((false : Bool), body)
            else ((false : Bool), '-' :: body)) = ((true : Bool), body)
        rw [if_pos rfl]
      show parseNum ('-' :: body) = some (pyVal (PyNum.dec true ip fp fd))
      simp only [parseNum, hsign, hbodyE, hval]
      simp [pyVal]
      try ring

/-! ## Round trip: timestamp text -/

theorem parseTimestamp_strTimestamp (t : Timestamp) (h : tsWF t = true) :
    parseTimestamp (strTimestamp t) = some t := by
  have hb : 1 ≤ t.month ∧ t.month ≤ 12 ∧ 1 ≤ t.day ∧ t.day ≤ 31
      ∧ t.hour ≤ 23 ∧ t.minute ≤ 59 ∧ t.second ≤ 59 ∧ t.micro < 10 ^ 6 := by
    simpa [tsWF] using h
  set y4 := padZeros 4 (natDigits t.year) with hy4
  set mo2 := padZeros 2 (natDigits t.month) with hmo2
  set da2 := padZeros 2 (natDigits t.day) with hda2
  set h2 := padZeros 2 (natDigits t.hour) with hh2
  set mi2 := padZeros 2 (natDigits t.minute) with hmi2
  set se2 := padZeros 2 (natDigits t.second) with hse2
  set F := (if t.micro = 0 then ([] : List Char) else '.' :: padZeros 6 (natDigits t.micro))
    with hF
  have hFchars : ∀ c ∈ F, c = '.' ∨ (digitVal c).isSome = true := by
    intro c hc
    rw [hF] at hc
    split at hc
    · cases hc
    · rcases List.mem_cons.mp hc with rfl | h2
      · exact Or.inl rfl
      · exact Or.inr (mem_padZeros_natDigits 6 t.micro c h2)
  have hD : strTimestamp t
      = (y4 ++ '-' :: (mo2 ++ '-' :: da2)) ++ ' ' :: (h2 ++ ':' :: (mi2 ++ ':' :: (se2 ++ F))) := by
    unfold strTimestamp
    rw [← hy4, ← hmo2, ← hda2, ← hh2, ← hmi2, ← hse2, ← hF]
    simp [List.append_assoc]
  have hDchars : ∀ c ∈ y4 ++ '-' :: (mo2 ++ '-' :: da2), (c == ' ' || c == 'T') = false := by
    intro c hc
    rcases List.mem_append.mp hc with h1 | h2
    · exact (digit_char_facts c (mem_padZeros_natDigits 4 t.year c h1)).2.2.2.1
    · rcases List.mem_cons.mp h2 with rfl | h3
      · rfl
      · rcases List.mem_append.mp h3 with h4 | h5
        · exact (digit_char_facts c (mem_padZeros_natDigits 2 t.month c h4)).2.2.2.1
        · rcases List.mem_cons.mp h5 with rfl | h6
          · rfl
          · exact (digit_char_facts c (mem_padZeros_natDigits 2 t.day c h6)).2.2.2.1
  have hTchars : ∀ c ∈ h2 ++ ':' :: (mi2 ++ ':' :: (se2 ++ F)), (c == ' ' || c == 'T') = false := by
    intro c hc
    rcases List.mem_append.mp hc with h1 | h2
    · exact (digit_char_facts c (mem_padZeros_natDigits 2 t.hour c h1)).2.2.2.1
    · rcases List.mem_cons.mp h2 with rfl | h3
      · rfl
      · rcases List.mem_append.mp h3 with h4 | h5
        · exact (digit_char_facts c (mem_padZeros_natDigits 2 t.minute c h4)).2.2.2.1
        · rcases List.mem_cons.mp h5 with rfl | h6
          · rfl
          · rcases List.mem_append.mp h6 with h7 | h8
            · exact (digit_char_facts c (mem_padZeros_natDigits 2 t.second c h7)).2.2.2.1
            · rcases hFchars c h8 with rfl | h9
              · rfl
              · exact (digit_char_facts c h9).2.2.2.1
  have hsplit1 : splitP (fun c => c == ' ' || c == 'T') (strTimestamp t)
      = [y4 ++ '-' :: (mo2 ++ '-' :: da2), h2 ++ ':' :: (mi2 ++ ':' :: (se2 ++ F))] := by
    rw [hD, splitP_append_sep _ _ ' ' _ hDchars rfl, splitP_no_sep _ _ hTchars]
  have hsplitD : splitP (fun c => c == '-') (y4 ++ '-' :: (mo2 ++ '-' :: da2))
      = [y4, mo2, da2] := by
    rw [splitP_append_sep _ _ '-' _
      (fun c hc => (digit_char_facts c (mem_padZeros_natDigits 4 t.year c hc)).2.2.2.2.1) rfl]
    rw [splitP_append_sep _ _ '-' _
      (fun c hc => (digit_char_facts c (mem_padZeros_natDigits 2 t.month c hc)).2.2.2.2.1) rfl]
    rw [splitP_no_sep _ _
      (fun c hc => (digit_char_facts c (mem_padZeros_natDigits 2 t.day c hc)).2.2.2.2.1)]
  have hsplitT : splitP (fun c => c == ':') (h2 ++ ':' :: (mi2 ++ ':' :: (se2 ++ F)))
      = [h2, mi2, se2 ++ F] := by
    rw [splitP_append_sep _ _ ':' _
      (fun c hc => (digit_char_facts c (mem_padZeros_natDigits 2 t.hour c hc)).2.2.2.2.2.1) rfl]
    rw [splitP_append_sep _ _ ':' _
      (fun c hc => (digit_char_facts c (mem_padZeros_natDigits 2 t.minute c hc)).2.2.2.2.2.1) rfl]
    rw [splitP_no_sep (fun c => c == ':') (se2 ++ F) (by
      intro c hc
      rcases List.mem_append.mp hc with h1 | h2
      · exact (digit_char_facts c (mem_padZeros_natDigits 2 t.second c h1)).2.2.2.2.2.1
      · rcases hFchars c h2 with rfl | h9
        · rfl
        · exact (digit_char_facts c h9).2.2.2.2.2.1)]
  by_cases hmic : t.micro = 0
  · have hFnil : F = [] := by rw [hF, if_pos hmic]
    have hsplitSS : splitP (fun c => c == '.') (se2 ++ F) = [se2 ++ F] := by
      rw [hFnil, List.append_nil]
      exact splitP_no_sep _ _
        (fun c hc => (digit_char_facts c (mem_padZeros_natDigits 2 t.second c hc)).1)
    simp only [parseTimestamp, hsplit1, hsplitD, hsplitT, hsplitSS]
    rw [show se2 ++ F = se2 by rw [hFnil, List.append_nil]]
    simp only [mkTS, hy4, hmo2, hda2, hh2, hmi2, hse2, digitsVal_padZeros]
    rw [if_pos ⟨hb.1, hb.2.1, hb.2.2.1, hb.2.2.2.1, hb.2.2.2.2.1, hb.2.2.2.2.2.1,
      hb.2.2.2.2.2.2.1⟩]
    rw [← hmic]
  · have hFval : F = '.' :: padZeros 6 (natDigits t.micro) := by rw [hF, if_neg hmic]
    have hsplitSS : splitP (fun c => c == '.') (se2 ++ F)
        = [se2, padZeros 6 (natDigits t.micro)] := by
      rw [hFval]
      rw [splitP_append_sep _ _ '.' _
        (fun c hc => (digit_char_facts c (mem_padZeros_natDigits 2 t.second c hc)).1) rfl]
      rw [splitP_no_sep _ _
        (fun c hc => (digit_char_facts c (mem_padZeros_natDigits 6 t.micro c hc)).1)]
    have hmlen : (padZeros 6 (natDigits t.micro)).length = 6 := by
      rw [padZeros_length]
      have := natDigits_length_le t.micro 6 hb.2.2.2.2.2.2.2 (by omega)
      omega
    simp only [parseTimestamp, hsplit1, hsplitD, hsplitT, hsplitSS]
    rw [if_neg (padZeros_ne_nil 6 t.micro)]
    simp only [mkTS, microOfFrac, hy4, hmo2, hda2, hh2, hmi2, hse2, digitsVal_padZeros, hmlen]
    have hcond : 1 ≤ t.month ∧ t.month ≤ 12 ∧ 1 ≤ t.day ∧ t.day ≤ 31 ∧ t.hour ≤ 23
        ∧ t.minute ≤ 59 ∧ t.second ≤ 59 :=
      ⟨hb.1, hb.2.1, hb.2.2.1, hb.2.2.2.1, hb.2.2.2.2.1, hb.2.2.2.2.2.1, hb.2.2.2.2.2.2.1⟩
    simp [hcond]

/-! ## Character cleanliness of the serialised cells -/

theorem cleanF_spec (f : List Char) :
    cleanF f = true ↔ ∀ c ∈ f, (c == ',' || c == '"' || c == '\r' || c == '\n') = false := by
  unfold cleanF needsQuote
  simp [List.any_eq_true]

theorem mem_strTimestamp (t : Timestamp) (c : Char) (h : c ∈ strTimestamp t) :
    (digitVal c).isSome = true ∨ c = '-' ∨ c = ' ' ∨ c = ':' ∨ c = '.' := by
  unfold strTimestamp at h
  simp only [List.append_assoc, List.cons_append, List.mem_append, List.mem_cons] at h
  rcases h with h | h
  · exact Or.inl (mem_padZeros_natDigits 4 t.year c h)
  rcases h with rfl | h
  · exact Or.inr (Or.inl rfl)
  rcases h with h | h
  · exact Or.inl (mem_padZeros_natDigits 2 t.month c h)
  rcases h with rfl | h
  · exact Or.inr (Or.inl rfl)
  rcases h with h | h
  · exact Or.inl (mem_padZeros_natDigits 2 t.day c h)
  rcases h with rfl | h
  · exact Or.inr (Or.inr (Or.inl rfl))
  rcases h with h | h
  · exact Or.inl (mem_padZeros_natDigits 2 t.hour c h)
  rcases h with rfl | h
  · exact Or.inr (Or.inr (Or.inr (Or.inl rfl)))
  rcases h with h | h
  · exact Or.inl (mem_padZeros_natDigits 2 t.minute c h)
  rcases h with rfl | h
  · exact Or.inr (Or.inr (Or.inr (Or.inl rfl)))
  rcases h with h | h
  · exact Or.inl (mem_padZeros_natDigits 2 t.second c h)
  split at h
  · cases h
  · rcases List.mem_cons.mp h with rfl | h2
    · exact Or.inr (Or.inr (Or.inr (Or.inr rfl)))
    · exact Or.inl (mem_padZeros_natDigits 6 t.micro c h2)

theorem cleanF_strTimestamp (t : Timestamp) : cleanF (strTimestamp t) = true := by
  rw [cleanF_spec]
  intro c hc
  rcases mem_strTimestamp t c hc with h | rfl | rfl | rfl | rfl
  · exact (digit_char_facts c h).2.2.2.2.2.2.2.2
  · rfl
  · rfl
  · rfl
  · rfl

theorem mem_strPyNum (v : PyNum) (c : Char) (h : c ∈ strPyNum v) :
    (digitVal c).isSome = true ∨ c = '-' ∨ c = '.' := by
  cases v with
  | int i =>
    rw [show strPyNum (.int i) = strInt i from rfl] at h
    unfold strInt at h
    by_cases hi : i < 0
    · rw [if_pos hi] at h
      rcases List.mem_cons.mp h with rfl | h2
      · exact Or.inr (Or.inl rfl)
      · exact Or.inl (mem_natDigits _ c h2)
    · rw [if_neg hi] at h
      exact Or.inl (mem_natDigits _ c h)
  | dec neg ip fp fd =>
    rw [show strPyNum (.dec neg ip fp fd)
        = (if neg then ['-'] else []) ++ natDigits ip ++ '.' :: padZeros fd (natDigits fp)
      from rfl] at h
    rcases List.mem_append.mp h with h1 | h2
    · rcases List.mem_append.mp h1 with h3 | h4
      · cases neg with
        | false => simp at h3
        | true =>
          simp at h3
          exact Or.inr (Or.inl h3)
      · exact Or.inl (mem_natDigits ip c h4)
    · rcases List.mem_cons.mp h2 with rfl | h5
      · exact Or.inr (Or.inr rfl)
      · exact Or.inl (mem_padZeros_natDigits fd fp c h5)

theorem cleanF_strPyNum (v : PyNum) : cleanF (strPyNum v) = true := by
  rw [cleanF_spec]
  intro c hc
  rcases mem_strPyNum v c hc with h | rfl | rfl
  · exact (digit_char_facts c h).2.2.2.2.2.2.2.2
  · rfl
  · rfl

theorem cleanF_strInt (i : ℤ) : cleanF (strInt i) = true := cleanF_strPyNum (.int i)

theorem strTimestamp_ne_nil (t : Timestamp) : strTimestamp t ≠ [] := by
  unfold strTimestamp
  intro hcon
  simp [List.append_eq_nil] at hcon

theorem parseTimestamp_nil : parseTimestamp [] = none := rfl

theorem parseNum_nil : parseNum [] = none := rfl

/-! ## The NA markers parse as nothing else -/

theorem naStr_not_numeric (f : List Char) (h : naStr f = true) : parseNum f = none := by
  have hm : f ∈ naStrings := by simpa [naStr] using h
  fin_cases hm <;> rfl

theorem naStr_not_timestamp (f : List Char) (h : naStr f = true) : parseTimestamp f = none := by
  have hm : f ∈ naStrings := by simpa [naStr] using h
  fin_cases hm <;> rfl

/-! ## CSV body lemmas -/

theorem csvField_clean (f : List Char) (h : cleanF f = true) : csvField f = f := by
  unfold csvField
  rw [if_neg]
  intro hq
  rw [cleanF] at h
  rw [hq] at h
  cases h

theorem cleanF_comma (f : List Char) (h : cleanF f = true) :
    ∀ c ∈ f, (c == ',') = false := by
  intro c hc
  have := (cleanF_spec f).mp h c hc
  cases hcc : (c == ',')
  · rfl
  · rw [hcc] at this
    simp at this

theorem cleanF_no_cr (f : List Char) (h : cleanF f = true) : ∀ c ∈ f, c ≠ '\r' := by
  intro c hc hcr
  have := (cleanF_spec f).mp h c hc
  rw [hcr] at this
  simp at this

theorem mem_csvBody (r : List (List Char)) (c : Char) (h : c ∈ csvBody r) :
    c = ',' ∨ ∃ f ∈ r, c ∈ csvField f := by
  induction r with
  | nil => cases h
  | cons f rest ih =>
    match rest with
    | [] =>
      rw [show csvBody [f] = csvField f from rfl] at h
      exact Or.inr ⟨f, by simp, h⟩
    | g :: rest' =>
      rw [show csvBody (f :: g :: rest') = csvField f ++ ',' :: csvBody (g :: rest') from rfl]
        at h
      rcases List.mem_append.mp h with h1 | h2
      · exact Or.inr ⟨f, by simp, h1⟩
      · rcases List.mem_cons.mp h2 with rfl | h3
        · exact Or.inl rfl
        · rcases ih h3 with h4 | ⟨g', hg', hcg'⟩
          · exact Or.inl h4
          · exact Or.inr ⟨g', by simp [hg'], hcg'⟩

theorem hasCRLF_of_no_cr (l : List Char) (h : ∀ c ∈ l, c ≠ '\r') : hasCRLF l = false := by
  induction l using hasCRLF.induct with
  | case1 => rfl
  | case2 rest => exact absurd rfl (h '\r' (by simp))
  | case3 c rest hne ih =>
    rw [hasCRLF.eq_3 c rest hne]
    exact ih (fun x hx => h x (by simp [hx]))

theorem hasCRLF_csvBody (r : List (List Char)) (h : ∀ f ∈ r, cleanF f = true) :
    hasCRLF (csvBody r) = false := by
  apply hasCRLF_of_no_cr
  intro c hc hcr
  rcases mem_csvBody r c hc with rfl | ⟨f, hf, hcf⟩
  · cases hcr
  · rw [csvField_clean f (h f hf)] at hcf
    exact cleanF_no_cr f (h f hf) c hcf hcr

theorem splitComma_csvBody (r : List (List Char)) (hne : r ≠ [])
    (h : ∀ f ∈ r, cleanF f = true) : splitComma (csvBody r) = r := by
  induction r with
  | nil => exact absurd rfl hne
  | cons f rest ih =>
    match rest with
    | [] =>
      rw [show csvBody [f] = csvField f from rfl, csvField_clean f (h f (by simp))]
      exact splitP_no_sep _ f (cleanF_comma f (h f (by simp)))
    | g :: rest' =>
      rw [show csvBody (f :: g :: rest') = csvField f ++ ',' :: csvBody (g :: rest') from rfl]
      rw [csvField_clean f (h f (by simp))]
      unfold splitComma
      rw [splitP_append_sep _ f ',' _ (cleanF_comma f (h f (by simp))) rfl]
      rw [show splitP (fun c => c == ',') (csvBody (g :: rest')) = splitComma (csvBody (g :: rest'))
        from rfl]
      rw [ih (by simp) (fun x hx => h x (by simp [hx]))]

theorem csvBody_ne_nil (f0 : List Char) (rest : List (List Char)) (h : f0 ≠ []) :
    csvBody (f0 :: rest) ≠ [] := by
  match rest with
  | [] =>
    rw [show csvBody [f0] = csvField f0 from rfl]
    unfold csvField
    split
    · simp
    · exact h
  | g :: rest' =>
    rw [show csvBody (f0 :: g :: rest') = csvField f0 ++ ',' :: csvBody (g :: rest') from rfl]
    unfold csvField
    split <;> simp

/-! ## Reading back a file of well-formed lines -/

theorem dataLines_join (ls : List (List Char)) (frag : List Char)
    (hls : ∀ l ∈ ls, hasCRLF l = false ∧ l ≠ []) (hfrag : hasCRLF frag = false) :
    dataLines ((ls.map (fun x => x ++ crlf)).flatten ++ frag)
      = ls ++ (if frag = [] then [] else [frag]) := by
  unfold dataLines
  rw [splitCRLF_lines ls frag (fun l hl => (hls l hl).1)]
  rw [splitCRLF_no_sep frag hfrag]
  rw [List.filter_append]
  congr 1
  · rw [List.filter_eq_self]
    intro l hl
    simpa using (hls l hl).2
  · split
    · next hf => simp [hf]
    · next hf => simp [hf]

theorem wfRow_shape (r : List (List Char)) (h : wfRow r = true) :
    ∃ f0 rest, r = f0 :: rest ∧ (parseTimestamp f0).isSome = true ∧ cleanF f0 = true
      ∧ f0 ≠ [] ∧ ∀ f ∈ rest, (parseNum f).isSome = true ∧ cleanF f = true := by
  match r with
  | [] => cases h
  | f0 :: rest =>
    simp only [wfRow, Bool.and_eq_true, List.all_eq_true] at h
    refine ⟨f0, rest, rfl, h.1.1, h.1.2, ?_, fun f hf => by simpa using h.2 f hf⟩
    intro hnil
    rw [hnil, parseTimestamp_nil] at h
    simp at h

theorem wfRow_clean (r : List (List Char)) (h : wfRow r = true) :
    ∀ f ∈ r, cleanF f = true := by
  obtain ⟨f0, rest, rfl, _, hc, _, hrest⟩ := wfRow_shape r h
  intro f hf
  rcases List.mem_cons.mp hf with rfl | h2
  · exact hc
  · exact (hrest f h2).2

theorem dataLines_csv (recs : List (List (List Char))) (frag : List Char)
    (h : ∀ r ∈ recs, wfRow r = true) (hfrag : hasCRLF frag = false) :
    dataLines ((recs.map csvLine).flatten ++ frag)
      = recs.map csvBody ++ (if frag = [] then [] else [frag]) := by
  rw [show recs.map csvLine = (recs.map csvBody).map (fun x => x ++ crlf) by
    rw [List.map_map]; rfl]
  rw [dataLines_join (recs.map csvBody) frag ?_ hfrag]
  intro l hl
  obtain ⟨r, hr, rfl⟩ := List.mem_map.mp hl
  have hwr := h r hr
  obtain ⟨f0, rest, hreq, _, _, hne, _⟩ := wfRow_shape r hwr
  refine ⟨hasCRLF_csvBody _ (wfRow_clean _ hwr), ?_⟩
  rw [hreq]
  exact csvBody_ne_nil f0 rest hne

theorem splitComma_csvBody_map (recs : List (List (List Char)))
    (h : ∀ r ∈ recs, wfRow r = true) :
    (recs.map csvBody).map splitComma = recs := by
  rw [List.map_map]
  conv_rhs => rw [show recs = recs.map id by simp]
  apply List.map_congr_left
  intro r hr
  have hwr := h r hr
  obtain ⟨f0, rest, hreq, _, _, hne, _⟩ := wfRow_shape r hwr
  show splitComma (csvBody r) = r
  rw [hreq]
  exact splitComma_csvBody _ (by simp) (by rw [← hreq]; exact wfRow_clean _ hwr)

/-! ## Column conversion of well-formed rows -/

theorem fieldOK_getD (r : List (List Char)) (h : wfRow r = true) (j : ℕ) (hj : 1 ≤ j) :
    fieldOK (r.getD j []) = true := by
  obtain ⟨f0, rest, rfl, _, _, _, hrest⟩ := wfRow_shape r h
  by_cases hlt : j < (f0 :: rest).length
  · have hmem : (f0 :: rest).getD j [] ∈ rest := by
      match j, hj with
      | j + 1, _ =>
        rw [List.getD_cons_succ]
        have hlt2 : j < rest.length := by simpa using hlt
        rw [List.getD_eq_getElem rest [] hlt2]
        exact List.getElem_mem hlt2
    unfold fieldOK
    rw [(hrest _ hmem).1]
    simp
  · rw [List.getD_eq_default _ _ (by omega)]
    rfl

theorem naStr_nil : naStr [] = true := rfl

theorem colOK_of_wf (rows : List (List (List Char))) (h : ∀ r ∈ rows, wfRow r = true)
    (j : ℕ) (hj : 1 ≤ j) : colOK rows j = true := by
  unfold colOK
  rw [List.all_eq_true]
  exact fun r hr => fieldOK_getD r (h r hr) j hj

theorem dtColOK_of_wf (rows : List (List (List Char))) (h : ∀ r ∈ rows, wfRow r = true) :
    dtColOK rows 0 = true := by
  unfold dtColOK
  rw [List.all_eq_true]
  intro r hr
  obtain ⟨f0, rest, rfl, hts, _, _, _⟩ := wfRow_shape r (h r hr)
  unfold dtFieldOK
  rw [List.getD_cons_zero, hts]
  simp

theorem naStr_false_of_numeric (f : List Char) (h : (parseNum f).isSome = true) :
    naStr f = false := by
  cases hna : naStr f
  · rfl
  · rw [naStr_not_numeric f hna] at h
    cases h

theorem naStr_false_of_timestamp (f : List Char) (h : (parseTimestamp f).isSome = true) :
    naStr f = false := by
  cases hna : naStr f
  · rfl
  · rw [naStr_not_timestamp f hna] at h
    cases h

theorem convRow_tail (rows : List (List (List Char)))
    (hok : ∀ k, 1 ≤ k → colOK rows k = true) :
    ∀ (fs : List (List Char)) (j : ℕ), 1 ≤ j →
      (∀ f ∈ fs, (parseNum f).isSome = true) →
      convRow 0 rows j fs = fs.map (fun f => Cell.num ((parseNum f).getD 0)) := by
  intro fs
  induction fs with
  | nil => intro j hj hfs; rfl
  | cons f fs' ih =>
    intro j hj hfs
    have hf := hfs f (by simp)
    obtain ⟨q, hq⟩ := Option.isSome_iff_exists.mp hf
    rw [show convRow 0 rows j (f :: fs')
        = (if j = 0 then convCol true (dtColOK rows 0) f
           else convCol false (colOK rows j) f) :: convRow 0 rows (j + 1) fs' from rfl]
    rw [if_neg (by omega), ih (j + 1) (by omega) (fun x hx => hfs x (by simp [hx]))]
    unfold convCol
    rw [naStr_false_of_numeric f hf]
    rw [hok j hj]
    simp [hq]

theorem convRow_wf (rows : List (List (List Char))) (hdt : dtColOK rows 0 = true)
    (hok : ∀ k, 1 ≤ k → colOK rows k = true)
    (r : List (List Char)) (hr : wfRow r = true) :
    convRow 0 rows 0 r = expRow r := by
  obtain ⟨f0, rest, rfl, hts, _, _, hrest⟩ := wfRow_shape r hr
  obtain ⟨t, ht⟩ := Option.isSome_iff_exists.mp hts
  rw [show convRow 0 rows 0 (f0 :: rest)
      = (if 0 = 0 then convCol true (dtColOK rows 0) f0
         else convCol false (colOK rows 0) f0) :: convRow 0 rows 1 rest from rfl]
  rw [if_pos rfl]
  rw [convRow_tail rows hok rest 1 (by omega) (fun f hf => (hrest f hf).1)]
  unfold convCol
  rw [naStr_false_of_timestamp f0 hts, hdt]
  simp only [expRow, ht]
  rfl

theorem getD_replicate_nil (k m : ℕ) :
    (List.replicate k ([] : List Char)).getD m [] = [] := by
  by_cases hm : m < k
  · rw [List.getD_eq_getElem _ _ (by simpa using hm)]
    simp
  · rw [List.getD_eq_default _ _ (by simpa using hm)]

theorem padRow_getD (w : ℕ) (r : List (List Char)) (j : ℕ) :
    (padRow w r).getD j [] = if j < r.length then r.getD j [] else [] := by
  unfold padRow
  by_cases hj : j < r.length
  · rw [if_pos hj]
    rw [List.getD_append _ _ _ _ hj]
  · rw [if_neg hj]
    rw [List.getD_append_right _ _ _ _ (by omega)]
    exact getD_replicate_nil _ _

theorem colOK_pad (recs : List (List (List Char))) (w : ℕ)
    (h : ∀ r ∈ recs, wfRow r = true) (j : ℕ) (hj : 1 ≤ j) :
    colOK (recs.map (padRow w)) j = true := by
  unfold colOK
  rw [List.all_eq_true]
  intro r hr
  obtain ⟨r0, hr0, rfl⟩ := List.mem_map.mp hr
  rw [padRow_getD]
  split
  · exact fieldOK_getD r0 (h r0 hr0) j hj
  · rfl

theorem dtColOK_pad (recs : List (List (List Char))) (w : ℕ)
    (h : ∀ r ∈ recs, wfRow r = true) :
    dtColOK (recs.map (padRow w)) 0 = true := by
  unfold dtColOK
  rw [List.all_eq_true]
  intro r hr
  obtain ⟨r0, hr0, rfl⟩ := List.mem_map.mp hr
  obtain ⟨f0, rest, hreq, hts, _, _, _⟩ := wfRow_shape r0 (h r0 hr0)
  rw [padRow_getD, if_pos (by rw [hreq]; simp)]
  unfold dtFieldOK
  rw [hreq, List.getD_cons_zero, hts]
  simp

theorem convRow_append (dtIdx : ℕ) (rows : List (List (List Char)))
    (xs ys : List (List Char)) : ∀ j : ℕ,
    convRow dtIdx rows j (xs ++ ys)
      = convRow dtIdx rows j xs ++ convRow dtIdx rows (j + xs.length) ys := by
  induction xs with
  | nil => intro j; simp [convRow]
  | cons f xs' ih =>
    intro j
    rw [List.cons_append]
    rw [show convRow dtIdx rows j (f :: (xs' ++ ys))
        = (if j = dtIdx then convCol true (dtColOK rows dtIdx) f
           else convCol false (colOK rows j) f) :: convRow dtIdx rows (j + 1) (xs' ++ ys)
      from rfl]
    rw [show convRow dtIdx rows j (f :: xs')
        = (if j = dtIdx then convCol true (dtColOK rows dtIdx) f
           else convCol false (colOK rows j) f) :: convRow dtIdx rows (j + 1) xs'
      from rfl]
    rw [ih (j + 1), List.cons_append]
    have harith : j + 1 + xs'.length = j + (f :: xs').length := by
      rw [List.length_cons]
      omega
    rw [harith]

theorem convCol_nil (isDT ok : Bool) : convCol isDT ok ([] : List Char) = Cell.nan := by
  unfold convCol
  rw [if_pos (show naStr [] = true from rfl)]

theorem convRow_replicate (dtIdx : ℕ) (rows : List (List (List Char))) (k : ℕ) :
    ∀ j : ℕ, convRow dtIdx rows j (List.replicate k ([] : List Char))
      = List.replicate k Cell.nan := by
  induction k with
  | zero => intro j; rfl
  | succ k' ih =>
    intro j
    rw [List.replicate_succ]
    rw [show convRow dtIdx rows j (([] : List Char) :: List.replicate k' [])
        = (if j = dtIdx then convCol true (dtColOK rows dtIdx) []
           else convCol false (colOK rows j) []) :: convRow dtIdx rows (j + 1)
            (List.replicate k' []) from rfl]
    rw [ih (j + 1), List.replicate_succ]
    split <;> rw [convCol_nil]

theorem convRow_padRow (w : ℕ) (rows : List (List (List Char)))
    (hdt : dtColOK rows 0 = true) (hok : ∀ k, 1 ≤ k → colOK rows k = true)
    (r : List (List Char)) (hr : wfRow r = true) :
    convRow 0 rows 0 (padRow w r) = expRowPad w r := by
  unfold padRow expRowPad
  rw [convRow_append, convRow_replicate, convRow_wf rows hdt hok r hr]

theorem expRowPad_of_length (w : ℕ) (r : List (List Char)) (h : r.length = w) :
    expRowPad w r = expRow r := by
  unfold expRowPad
  rw [h, Nat.sub_self]
  simp

/-! ## The tail window -/

theorem tailN_of_lt (l : List α) (n : ℕ) (h : l.length < n) : tailN n l = l := by
  unfold tailN
  rw [Nat.sub_eq_zero_of_le (le_of_lt h), List.drop_zero]

theorem tailN_length (l : List α) (n : ℕ) : (tailN n l).length = min n l.length := by
  unfold tailN
  rw [List.length_drop]
  omega

/-! ## The two tail readers on files of well-formed rows -/

theorem wfFile_all (recs : List (List (List Char))) (h : wfFile recs = true) :
    ∀ r ∈ recs, wfRow r = true := by
  intro r hr
  rw [wfFile, List.all_eq_true] at h
  exact h r hr

theorem any_too_wide_false (recs : List (List (List Char))) (w : ℕ)
    (har : ∀ r ∈ recs, r.length ≤ w) :
    (recs.any fun r => decide (w < r.length)) = false := by
  cases h2 : recs.any fun r => decide (w < r.length)
  · rfl
  · obtain ⟨r, hr, hf⟩ := List.any_eq_true.mp h2
    have h3 := of_decide_eq_true hf
    have h4 := har r hr
    omega

theorem map_isEmpty_false (recs : List (List (List Char))) (h : recs ≠ []) :
    (recs.map csvBody).isEmpty = false := by
  cases recs with
  | nil => exact absurd rfl h
  | cons r rest => rfl

theorem conv_pad_map (recs : List (List (List Char))) (w : ℕ)
    (hall : ∀ r ∈ recs, wfRow r = true) :
    (recs.map (padRow w)).map (convRow 0 (recs.map (padRow w)) 0)
      = recs.map (expRowPad w) := by
  rw [List.map_map]
  apply List.map_congr_left
  intro r hr
  exact convRow_padRow w (recs.map (padRow w)) (dtColOK_pad recs w hall)
    (colOK_pad recs w hall) r (hall r hr)

theorem gauge_data_of_lines (content : List Char) (recs : List (List (List Char))) (n : ℕ)
    (hdl : dataLines content = recs.map csvBody)
    (hall : ∀ r ∈ recs, wfRow r = true) (hne : recs ≠ [])
    (har : ∀ r ∈ recs, r.length ≤ 4) :
    gauge_data (some content) n = .ok (tailN n (recs.map (expRowPad 4))) := by
  have hraw : (recs.map csvBody).map splitComma = recs := splitComma_csvBody_map recs hall
  simp only [gauge_data]
  rw [hdl, hraw]
  rw [if_neg (by rw [map_isEmpty_false recs hne]; exact Bool.false_ne_true)]
  rw [if_neg (by rw [any_too_wide_false recs 4 har]; exact Bool.false_ne_true)]
  rw [conv_pad_map recs 4 hall]

theorem gauge_data_wf (recs : List (List (List Char))) (n : ℕ) (h : wfFile recs = true)
    (hne : recs ≠ []) (har : ∀ r ∈ recs, r.length ≤ 4) :
    gauge_data (some ((recs.map csvLine).flatten)) n
      = .ok (tailN n (recs.map (expRowPad 4))) := by
  have hall := wfFile_all recs h
  have h1 : dataLines ((recs.map csvLine).flatten) = recs.map csvBody := by
    have h2 := dataLines_csv recs [] hall rfl
    simpa using h2
  exact gauge_data_of_lines _ recs n h1 hall hne har

theorem temperature_data_wf (hdrRest : List (List Char)) (recs : List (List (List Char)))
    (n : ℕ) (hh : ∀ f ∈ hdrRest, cleanF f = true) (h : wfFile recs = true)
    (har : ∀ r ∈ recs, r.length ≤ ("datetime".toList :: hdrRest).length) :
    temperature_data
        (some (csvLine ("datetime".toList :: hdrRest) ++ (recs.map csvLine).flatten)) n
      = .ok (tailN n (recs.map (expRowPad ("datetime".toList :: hdrRest).length))) := by
  have hall := wfFile_all recs h
  have hcleanh : ∀ f ∈ ("datetime".toList :: hdrRest), cleanF f = true := by
    intro f hf
    rcases List.mem_cons.mp hf with rfl | h2
    · decide
    · exact hh f h2
  have hfile : csvLine ("datetime".toList :: hdrRest) ++ (recs.map csvLine).flatten
      = ((("datetime".toList :: hdrRest) :: recs).map csvLine).flatten := by
    rw [List.map_cons, List.flatten_cons]
  have hdl : dataLines (csvLine ("datetime".toList :: hdrRest) ++ (recs.map csvLine).flatten)
      = csvBody ("datetime".toList :: hdrRest) :: recs.map csvBody := by
    rw [hfile]
    rw [show (("datetime".toList :: hdrRest) :: recs).map csvLine
        = ((("datetime".toList :: hdrRest) :: recs).map csvBody).map (fun x => x ++ crlf) by
      rw [List.map_map]; rfl]
    have h3 := dataLines_join ((("datetime".toList :: hdrRest) :: recs).map csvBody) [] ?_ rfl
    · simpa using h3
    · intro l hl
      obtain ⟨r, hr, rfl⟩ := List.mem_map.mp hl
      rcases List.mem_cons.mp hr with rfl | h4
      · exact ⟨hasCRLF_csvBody _ hcleanh, csvBody_ne_nil _ _ (by decide)⟩
      · have hwr := hall r h4
        obtain ⟨f0, rest, hreq, _, _, hne, _⟩ := wfRow_shape r hwr
        refine ⟨hasCRLF_csvBody _ (wfRow_clean _ hwr), ?_⟩
        rw [hreq]
        exact csvBody_ne_nil f0 rest hne
  simp only [temperature_data, hdl]
  rw [splitComma_csvBody _ (by simp) hcleanh]
  rw [splitComma_csvBody_map recs hall]
  rw [show List.findIdx (fun f => f = "datetime".toList) ("datetime".toList :: hdrRest) = 0 by
    rw [List.findIdx_cons]
    simp]
  rw [if_neg (by
    rw [any_too_wide_false recs ("datetime".toList :: hdrRest).length har]
    exact Bool.false_ne_true)]
  rw [conv_pad_map recs ("datetime".toList :: hdrRest).length hall]

/-! ## Writer-side lemmas -/

theorem cleanRow_shape (r : List (List Char)) (h : cleanRow r = true) :
    ∃ f0 rest, r = f0 :: rest ∧ f0 ≠ [] ∧ ∀ f ∈ r, cleanF f = true := by
  match r with
  | [] => cases h
  | f0 :: rest =>
    simp only [cleanRow, Bool.and_eq_true, List.all_eq_true] at h
    refine ⟨f0, rest, rfl, by simpa using h.1.1, ?_⟩
    intro f hf
    rcases List.mem_cons.mp hf with rfl | h2
    · exact h.1.2
    · exact h.2 f h2

theorem csvRows_single (r : List (List Char)) (h : cleanRow r = true) :
    csvRows (csvLine r) = [r] := by
  obtain ⟨f0, rest, hreq, hne, hclean⟩ := cleanRow_shape r h
  have hbody : hasCRLF (csvBody r) = false := hasCRLF_csvBody r hclean
  have hbne : csvBody r ≠ [] := by
    rw [hreq]
    exact csvBody_ne_nil f0 rest hne
  have hsplit : splitCRLF (csvLine r) = [csvBody r, []] := by
    unfold csvLine
    rw [show crlf = '\r' :: '\n' :: ([] : List Char) from rfl]
    rw [splitCRLF_append_sep _ _ hbody]
    rfl
  unfold csvRows
  rw [hsplit]
  show [if csvBody r = [] then ([] : List (List Char)) else splitComma (csvBody r)] = [r]
  rw [if_neg hbne, splitComma_csvBody r (by rw [hreq]; simp) hclean]

theorem check_header_empty (hdr : List (List Char)) : check_header hdr [] = .ok true := rfl

theorem check_header_self (hdr : List (List Char)) (h : cleanRow hdr = true) :
    check_header hdr (csvLine hdr) = .ok true := by
  unfold check_header
  rw [csvRows_single hdr h]
  show (if hdr = hdr then (Except.ok true : Except (List (List Char) × List (List Char)) Bool)
      else Except.error (hdr, hdr)) = Except.ok true
  rw [if_pos rfl]

theorem writeStep_existing_mismatch (hdr row : List (List Char)) (c : List Char)
    (r0 : List (List Char)) (rest : List (List (List Char)))
    (hrows : csvRows c = r0 :: rest) (hne : hdr ≠ r0) :
    writeStep hdr row false (some c) = .headerErr c hdr r0 := by
  have hch : check_header hdr c = Except.error (hdr, r0) := by
    unfold check_header
    rw [hrows]
    show (if hdr = r0 then (Except.ok true : Except (List (List Char) × List (List Char)) Bool)
        else Except.error (hdr, r0)) = Except.error (hdr, r0)
    rw [if_neg hne]
  unfold writeStep
  show (match check_header hdr c with
      | Except.ok _ => StepOut.ok (c ++ csvLine row)
      | Except.error e => StepOut.headerErr c e.1 e.2) = StepOut.headerErr c hdr r0
  rw [hch]

theorem writeStep_fresh (hdr row : List (List Char)) (h : cleanRow hdr = true) :
    writeStep hdr row false none = .ok (csvLine hdr ++ csvLine row) := by
  unfold writeStep
  show (match check_header hdr (csvLine hdr) with
      | Except.ok _ => StepOut.ok (csvLine hdr ++ csvLine row)
      | Except.error e => StepOut.headerErr (csvLine hdr) e.1 e.2)
    = StepOut.ok (csvLine hdr ++ csvLine row)
  rw [check_header_self hdr h]

theorem writeStep_empty_file (hdr row : List (List Char)) :
    writeStep hdr row false (some []) = .ok (csvLine row) := by
  unfold writeStep
  show (match check_header hdr [] with
      | Except.ok _ => StepOut.ok ([] ++ csvLine row)
      | Except.error e => StepOut.headerErr [] e.1 e.2) = StepOut.ok (csvLine row)
  rw [check_header_empty hdr]
  rfl

theorem appendAll_some (rows : List (List (List Char))) (c : List Char) :
    appendAll rows (some c) = some (c ++ (rows.map csvLine).flatten) := by
  induction rows generalizing c with
  | nil => simp [appendAll]
  | cons r rest ih =>
    rw [show appendAll (r :: rest) (some c) = appendAll rest (some (append r (some c)))
      from rfl]
    rw [ih]
    rw [show append r (some c) = c ++ csvLine r from rfl]
    simp [List.append_assoc]

theorem appendAll_none (rows : List (List (List Char))) (h : rows ≠ []) :
    appendAll rows none = some ((rows.map csvLine).flatten) := by
  cases rows with
  | nil => exact absurd rfl h
  | cons r rest =>
    rw [show appendAll (r :: rest) none = appendAll rest (some (append r none)) from rfl]
    rw [appendAll_some]
    rw [show append r none = csvLine r from rfl]
    simp

/-! ## Serialised logical records are well-formed rows -/

theorem wfRow_serRec (p : RecordV) (ht : tsWF p.1 = true)
    (hv : ∀ v ∈ p.2, pyWF v = true) : wfRow (serRec p) = true := by
  obtain ⟨t, vals⟩ := p
  simp only [serRec, wfRow, Bool.and_eq_true, List.all_eq_true]
  refine ⟨⟨?_, cleanF_strTimestamp t⟩, ?_⟩
  · rw [parseTimestamp_strTimestamp t ht]
    rfl
  · intro f hf
    obtain ⟨v, hvm, rfl⟩ := List.mem_map.mp hf
    have := parseNum_strPyNum v (hv v hvm)
    rw [this]
    exact ⟨rfl, cleanF_strPyNum v⟩

theorem wfFile_serRec (recs : List RecordV) (h : wfRecs recs = true) :
    wfFile (recs.map serRec) = true := by
  rw [wfFile, List.all_eq_true]
  intro r hr
  obtain ⟨p, hp, rfl⟩ := List.mem_map.mp hr
  rw [wfRecs, List.all_eq_true] at h
  have hp2 := h p hp
  rw [Bool.and_eq_true, List.all_eq_true] at hp2
  exact wfRow_serRec p hp2.1 (fun v hvm => hp2.2 v hvm)

theorem expRow_serRec (p : RecordV) (ht : tsWF p.1 = true)
    (hv : ∀ v ∈ p.2, pyWF v = true) : expRow (serRec p) = expRecV p := by
  obtain ⟨t, vals⟩ := p
  simp only [serRec, expRow, expRecV]
  rw [parseTimestamp_strTimestamp t ht]
  rw [List.map_map]
  simp only [Option.getD_some, List.cons.injEq, true_and]
  apply List.map_congr_left
  intro v hvm
  show Cell.num ((parseNum (strPyNum v)).getD 0) = Cell.num (pyVal v)
  rw [parseNum_strPyNum v (hv v hvm)]
  rfl

/-! ## Multi-line files as `csv.reader` sees them -/

theorem csvRows_lines (rows : List (List (List Char))) (h : ∀ r ∈ rows, cleanRow r = true) :
    csvRows ((rows.map csvLine).flatten) = rows := by
  have hbody : ∀ r ∈ rows, hasCRLF (csvBody r) = false ∧ csvBody r ≠ [] := by
    intro r hr
    obtain ⟨f0, rest, hreq, hne, hclean⟩ := cleanRow_shape r (h r hr)
    exact ⟨hasCRLF_csvBody r hclean, by rw [hreq]; exact csvBody_ne_nil f0 rest hne⟩
  have hsp : splitCRLF ((rows.map csvLine).flatten) = rows.map csvBody ++ [[]] := by
    rw [show rows.map csvLine = (rows.map csvBody).map (fun x => x ++ crlf) by
      rw [List.map_map]; rfl]
    have h2 := splitCRLF_lines (rows.map csvBody) [] (by
      intro l hl
      obtain ⟨r, hr, rfl⟩ := List.mem_map.mp hl
      exact (hbody r hr).1)
    simpa [splitCRLF] using h2
  unfold csvRows
  rw [hsp]
  have hlast : (rows.map csvBody ++ [[]]).getLast? = some ([] : List Char) := by simp
  have hdrop : (rows.map csvBody ++ [[]]).dropLast = rows.map csvBody := by simp
  simp only [hlast, hdrop]
  conv_rhs => rw [show rows = rows.map id by simp]
  rw [List.map_map]
  apply List.map_congr_left
  intro r hr
  show (if csvBody r = [] then ([] : List (List Char)) else splitComma (csvBody r)) = r
  rw [if_neg (hbody r (by simpa using hr)).2]
  obtain ⟨f0, rest, hreq, hne, hclean⟩ := cleanRow_shape r (h r (by simpa using hr))
  rw [hreq]
  exact splitComma_csvBody _ (by simp) (by rw [← hreq]; exact hclean)

/-! ## The Lakeshore data row: cleanliness and arity -/

theorem cleanRow_dataRow (flags : List Bool) (now : Timestamp) (inst : Inst) :
    cleanRow (dataRow flags now inst) = true := by
  simp only [dataRow, cleanRow, Bool.and_eq_true, List.all_eq_true]
  refine ⟨⟨by simpa using strTimestamp_ne_nil now, cleanF_strTimestamp now⟩, ?_⟩
  intro f hf
  simp only [List.mem_append] at hf
  rcases hf with ((((((h1 | h2) | h3) | h4) | h5) | h6) | h7) | h8
  · obtain ⟨a, _, rfl⟩ := List.mem_map.mp h1
    exact cleanF_strPyNum _
  · obtain ⟨a, _, rfl⟩ := List.mem_map.mp h2
    exact cleanF_strPyNum _
  · obtain ⟨a, _, rfl⟩ := List.mem_map.mp h3
    exact cleanF_strInt _
  · obtain ⟨a, _, rfl⟩ := List.mem_map.mp h4
    exact cleanF_strPyNum _
  · obtain ⟨a, _, rfl⟩ := List.mem_map.mp h5
    exact cleanF_strPyNum _
  · obtain ⟨a, _, rfl⟩ := List.mem_map.mp h6
    exact cleanF_strPyNum _
  · obtain ⟨a, _, rfl⟩ := List.mem_map.mp h7
    exact cleanF_strPyNum _
  · obtain ⟨a, _, rfl⟩ := List.mem_map.mp h8
    exact cleanF_strPyNum _

theorem channels_alpha_length (flags : List Bool) :
    (channels_alpha flags).length = (channels flags).length := by
  unfold channels_alpha
  rw [List.length_map]

theorem header_row_length (flags : List Bool) :
    (header_row flags).length = 1 + 8 * (channels flags).length := by
  simp only [header_row, temperature_labels, setpoint_labels, heater_range_labels,
    heater_output_labels, heater_max_current_labels, heater_p_labels, heater_i_labels,
    heater_d_labels, List.length_cons, List.length_append, List.length_map,
    channels_alpha_length]
  ring

theorem dataRow_length (flags : List Bool) (now : Timestamp) (inst : Inst) :
    (dataRow flags now inst).length = 1 + 8 * (channels flags).length := by
  simp only [dataRow, List.length_cons, List.length_append, List.length_map,
    channels_alpha_length]
  ring

/-! ## Last elements -/

theorem getLastD_mem (l : List α) (d : α) (h : l ≠ []) : l.getLastD d ∈ l := by
  induction l generalizing d with
  | nil => exact absurd rfl h
  | cons x rest ih =>
    match rest with
    | [] => simp
    | y :: rest' =>
      rw [show (x :: y :: rest').getLastD d = (y :: rest').getLastD x from rfl]
      exact List.mem_cons_of_mem x (ih x (by simp))

theorem tailN_full (l : List α) : tailN l.length l = l := by
  unfold tailN
  simp

theorem serRec_length (p : RecordV) : (serRec p).length = 1 + p.2.length := by
  simp only [serRec, List.length_cons, List.length_map]
  omega

theorem expRowPad_map_of_length (recs : List (List (List Char))) (w : ℕ)
    (ha : ∀ r ∈ recs, r.length = w) :
    recs.map (expRowPad w) = recs.map expRow := by
  apply List.map_congr_left
  intro r hr
  exact expRowPad_of_length w r (ha r hr)

/-! ## The claims -/

/-- C1: when the writer's target file already exists and its first CSV row,
compared field for field, differs from the expected header, the first write
step of the session (header_ok still unset) raises the header-mismatch
ValueError whose payload carries both the expected header and the header found
in the file, and the step output still holds exactly the file's previous
content — the data-row append below the check never ran. -/
theorem claim_C1 (hdr row r0 : List (List Char)) (c : List Char)
    (rest : List (List (List Char))) (hex : csvRows c = r0 :: rest) (hne : hdr ≠ r0) :
    writeStep hdr row false (some c) = StepOut.headerErr c hdr r0 :=
  writeStep_existing_mismatch hdr row c r0 rest hex hne

/-- Witness for C1 at the specification's own scenario: expected header
datetime, ch1, ch2 against a file holding the header datetime, ch1. -/
theorem claim_C1_witness :
    writeStep ["datetime".toList, "ch1".toList, "ch2".toList]
      ["2024-01-01 00:00:00".toList, "0.001".toList, "0.002".toList]
      false (some ("datetime,ch1\r\n".toList))
    = StepOut.headerErr ("datetime,ch1\r\n".toList)
        ["datetime".toList, "ch1".toList, "ch2".toList]
        ["datetime".toList, "ch1".toList] :=
  claim_C1 ["datetime".toList, "ch1".toList, "ch2".toList]
    ["2024-01-01 00:00:00".toList, "0.001".toList, "0.002".toList]
    ["datetime".toList, "ch1".toList] ("datetime,ch1\r\n".toList) []
    (by decide) (by decide)

/-- C9: on a file that exists but is empty, csv.reader yields no row, so the
for-loop body of check_header never runs and it returns True; the write step
therefore appends the data row to the headerless file, whose first (and only)
CSV row is then the data row, not the header. -/
theorem claim_C9 (hdr row : List (List Char)) (hclean : cleanRow row = true)
    (hne : row ≠ hdr) :
    check_header hdr [] = Except.ok true
    ∧ writeStep hdr row false (some []) = StepOut.ok (csvLine row)
    ∧ csvRows (csvLine row) = [row]
    ∧ (csvRows (csvLine row)).headD [] ≠ hdr := by
  refine ⟨check_header_empty hdr, writeStep_empty_file hdr row,
    csvRows_single row hclean, ?_⟩
  rw [csvRows_single row hclean]
  simpa using hne

/-- Witness for C9: the checked-in Lakeshore header against an existing empty
file and a concrete data row. -/
theorem claim_C9_witness :
    check_header (header_row stdFlags) [] = Except.ok true
    ∧ writeStep (header_row stdFlags)
        ["2024-01-01 00:00:00".toList, "25.5".toList] false (some [])
      = StepOut.ok (csvLine ["2024-01-01 00:00:00".toList, "25.5".toList])
    ∧ csvRows (csvLine ["2024-01-01 00:00:00".toList, "25.5".toList])
      = [["2024-01-01 00:00:00".toList, "25.5".toList]]
    ∧ (csvRows (csvLine ["2024-01-01 00:00:00".toList, "25.5".toList])).headD []
      ≠ header_row stdFlags :=
  claim_C9 (header_row stdFlags) ["2024-01-01 00:00:00".toList, "25.5".toList]
    (by decide) (by decide)

/-- C5 is refuted on the gauge pipeline: its writer (addrow, driven by the
receiving thread) creates the file lazily but never writes any header line —
the file after the first append consists of exactly the serialised data row,
so the first line's fields are the data values, not the field names the
reader (gauge_names) uses.  The claim "for every writer pipeline ... the
resulting file's first line is the header" is therefore false at this input. -/
theorem claim_C5_counterexample :
    addrow ["2024-01-01 00:00:00".toList, "1.0e-3".toList, "2.0e-3".toList, "3.0e-3".toList]
        none
      = csvLine ["2024-01-01 00:00:00".toList, "1.0e-3".toList, "2.0e-3".toList,
          "3.0e-3".toList]
    ∧ csvRows (addrow ["2024-01-01 00:00:00".toList, "1.0e-3".toList, "2.0e-3".toList,
          "3.0e-3".toList] none)
      = [["2024-01-01 00:00:00".toList, "1.0e-3".toList, "2.0e-3".toList, "3.0e-3".toList]]
    ∧ ["2024-01-01 00:00:00".toList, "1.0e-3".toList, "2.0e-3".toList, "3.0e-3".toList]
      ≠ gauge_names :=
  ⟨rfl, by decide, by decide⟩

/-- C5 amended: only the temperature writer creates a missing file with a
header — its first step writes the header line and then the data row, so the
file's first CSV row is the header and the second the data; the gauge writer
(addrow) creates the file with the first data row as its first line and never
emits a header (its reader supplies the column names itself). -/
theorem claim_C5_amended (hdr row r : List (List Char)) (hh : cleanRow hdr = true)
    (hrow : cleanRow row = true) (hr : cleanRow r = true) :
    (writeStep hdr row false none = StepOut.ok (csvLine hdr ++ csvLine row)
      ∧ csvRows (csvLine hdr ++ csvLine row) = [hdr, row])
    ∧ (addrow r none = csvLine r ∧ csvRows (csvLine r) = [r]) := by
  refine ⟨⟨writeStep_fresh hdr row hh, ?_⟩, rfl, csvRows_single r hr⟩
  have h2 := csvRows_lines [hdr, row] (by
    intro x hx
    rcases List.mem_cons.mp hx with rfl | hx2
    · exact hh
    · rcases List.mem_cons.mp hx2 with rfl | hx3
      · exact hrow
      · cases hx3)
  simpa using h2

/-- Witness for the amended C5: the checked-in Lakeshore header with a
25-field data row, and a concrete gauge data row. -/
theorem claim_C5_amended_witness :
    (writeStep (header_row stdFlags)
        ("2024-01-01 00:00:00".toList :: List.replicate 24 ("1.5".toList)) false none
      = StepOut.ok (csvLine (header_row stdFlags)
          ++ csvLine ("2024-01-01 00:00:00".toList :: List.replicate 24 ("1.5".toList)))
      ∧ csvRows (csvLine (header_row stdFlags)
          ++ csvLine ("2024-01-01 00:00:00".toList :: List.replicate 24 ("1.5".toList)))
        = [header_row stdFlags,
            "2024-01-01 00:00:00".toList :: List.replicate 24 ("1.5".toList)])
    ∧ (addrow ["2024-01-01 00:00:01".toList, "1.1e-3".toList, "2.1e-3".toList,
          "3.1e-3".toList] none
        = csvLine ["2024-01-01 00:00:01".toList, "1.1e-3".toList, "2.1e-3".toList,
            "3.1e-3".toList]
      ∧ csvRows (csvLine ["2024-01-01 00:00:01".toList, "1.1e-3".toList, "2.1e-3".toList,
            "3.1e-3".toList])
        = [["2024-01-01 00:00:01".toList, "1.1e-3".toList, "2.1e-3".toList,
            "3.1e-3".toList]]) :=
  claim_C5_amended (header_row stdFlags)
    ("2024-01-01 00:00:00".toList :: List.replicate 24 ("1.5".toList))
    ["2024-01-01 00:00:01".toList, "1.1e-3".toList, "2.1e-3".toList, "3.1e-3".toList]
    (by decide) (by decide) (by decide)

/-- C4 is refuted: the poll loop has no exception handler, so a communication
error on a tick leaves the while-loop (second component false) with the file
unchanged, and the following good tick is never processed — no row for it is
ever appended, where the claim says the loop would log, skip one sample and
continue. -/
theorem claim_C4_counterexample :
    runPoll stdFlags
      [Tick.err,
        Tick.ok ⟨2024, 1, 1, 0, 0, 1, 0⟩
          ⟨fun _ => PyNum.dec false 25 5 1, fun _ => PyNum.dec false 20 0 1, fun _ => 1,
            fun _ => PyNum.dec false 0 0 1, fun _ => PyNum.dec false 0 8 1,
            fun _ => PyNum.dec false 50 0 1, fun _ => PyNum.dec false 20 0 1,
            fun _ => PyNum.dec false 0 0 1⟩]
      false (some (csvLine (header_row stdFlags)))
    = (some (csvLine (header_row stdFlags)), false) := rfl

/-- C4 amended: an instrument-read failure on a tick terminates the loop at
once — the uncaught exception propagates, the file keeps whatever it held,
and every later tick of the trace goes unprocessed.  Nothing is logged for
the failed sample (the loop prints rows only on success). -/
theorem claim_C4_amended (flags : List Bool) (rest : List Tick) (header_ok : Bool)
    (fs : LogFile) : runPoll flags (Tick.err :: rest) header_ok fs = (fs, false) := rfl

/-- C7: the data row built on every tick has exactly as many cells as the
header row — one timestamp cell plus eight cells per enabled channel — and
the appended CSV line parses back to exactly that row, so every line after
the header carries the header's field count. -/
theorem claim_C7 (flags : List Bool) (now : Timestamp) (inst : Inst) :
    (dataRow flags now inst).length = (header_row flags).length
    ∧ (header_row flags).length = 1 + 8 * (channels flags).length
    ∧ csvRows (csvLine (dataRow flags now inst)) = [dataRow flags now inst] := by
  refine ⟨?_, header_row_length flags, csvRows_single _ (cleanRow_dataRow flags now inst)⟩
  rw [dataRow_length, header_row_length]

/-- C3 is refuted at M = 0: the claim covers a log file of M ≥ 0 data rows,
but on a zero-row gauge file `pd.read_csv` raises `EmptyDataError` — and when
the file was never created at all, opening it raises `FileNotFoundError` — so
the reader does not return an empty record list there; it raises. -/
theorem claim_C3_counterexample :
    gauge_data (some []) 10 = Except.error ReadError.emptyData
    ∧ gauge_data none 10 = Except.error ReadError.fileNotFound := ⟨rfl, rfl⟩

/-- C3 amended: on a file of M ≥ 1 well-formed, fully terminated data rows,
each tail reader parses every row (timestamp column to timestamps, channel
columns to numbers), excludes the header line where one is present (the
temperature file), keeps exactly min(n, M) rows — all of them when M < n, the
last n in original order otherwise.  At M = 0 the gauge reader instead raises:
`EmptyDataError` on an empty file, `FileNotFoundError` on a missing one (the
headed temperature file is never empty, but raises the same two errors on an
empty or missing file).  The arity hypotheses record that the rows fill the
readers' column sets exactly. -/
theorem claim_C3_amended (recsG recsT : List (List (List Char))) (n : ℕ)
    (hG : wfFile recsG = true) (hGne : recsG ≠ [])
    (hGa : ∀ r ∈ recsG, r.length = 4)
    (hT : wfFile recsT = true)
    (hTa : ∀ r ∈ recsT, r.length = (header_row stdFlags).length) :
    (gauge_data (some ((recsG.map csvLine).flatten)) n
        = Except.ok (tailN n (recsG.map expRow))
      ∧ (tailN n (recsG.map expRow)).length = min n recsG.length
      ∧ (recsG.length < n →
          gauge_data (some ((recsG.map csvLine).flatten)) n
            = Except.ok (recsG.map expRow)))
    ∧ (temperature_data
          (some (csvLine (header_row stdFlags) ++ (recsT.map csvLine).flatten)) n
        = Except.ok (tailN n (recsT.map expRow))
      ∧ (tailN n (recsT.map expRow)).length = min n recsT.length
      ∧ (recsT.length < n →
          temperature_data
              (some (csvLine (header_row stdFlags) ++ (recsT.map csvLine).flatten)) n
            = Except.ok (recsT.map expRow)))
    ∧ gauge_data (some []) n = Except.error ReadError.emptyData
    ∧ gauge_data none n = Except.error ReadError.fileNotFound
    ∧ temperature_data (some []) n = Except.error ReadError.emptyData
    ∧ temperature_data none n = Except.error ReadError.fileNotFound := by
  have hg : gauge_data (some ((recsG.map csvLine).flatten)) n
      = Except.ok (tailN n (recsG.map (expRowPad 4))) :=
    gauge_data_wf recsG n hG hGne (fun r hr => le_of_eq (hGa r hr))
  rw [expRowPad_map_of_length recsG 4 hGa] at hg
  have ht : temperature_data
        (some (csvLine (header_row stdFlags) ++ (recsT.map csvLine).flatten)) n
      = Except.ok (tailN n (recsT.map (expRowPad (header_row stdFlags).length))) :=
    temperature_data_wf _ recsT n (by decide) hT (fun r hr => le_of_eq (hTa r hr))
  rw [expRowPad_map_of_length recsT (header_row stdFlags).length hTa] at ht
  refine ⟨⟨hg, ?_, ?_⟩, ⟨ht, ?_, ?_⟩, rfl, rfl, rfl, rfl⟩
  · rw [tailN_length, List.length_map]
  · intro hlt
    rw [hg, tailN_of_lt _ n (by rw [List.length_map]; exact hlt)]
  · rw [tailN_length, List.length_map]
  · intro hlt
    rw [ht, tailN_of_lt _ n (by rw [List.length_map]; exact hlt)]

/-- Witness for the amended C3: two gauge rows read with bound 3 (all kept),
one temperature row behind the checked-in header read with bound 3. -/
theorem claim_C3_amended_witness :
    (tailN 3 ([["2024-01-01 00:00:00".toList, "1.0e-3".toList, "2.0e-3".toList,
          "3.0e-3".toList],
        ["2024-01-01 00:00:01".toList, "1.1e-3".toList, "2.1e-3".toList,
          "3.1e-3".toList]].map expRow)).length = min 3 2
    ∧ (tailN 3 ([("2024-01-01 00:00:00".toList
        :: List.replicate 24 ("1.5".toList))].map expRow)).length = min 3 1 :=
  ⟨(claim_C3_amended [["2024-01-01 00:00:00".toList, "1.0e-3".toList, "2.0e-3".toList,
        "3.0e-3".toList],
      ["2024-01-01 00:00:01".toList, "1.1e-3".toList, "2.1e-3".toList, "3.1e-3".toList]]
      [("2024-01-01 00:00:00".toList :: List.replicate 24 ("1.5".toList))] 3
      (by decide) (List.cons_ne_nil _ _) (by decide) (by decide) (by decide)).1.2.1,
   (claim_C3_amended [["2024-01-01 00:00:00".toList, "1.0e-3".toList, "2.0e-3".toList,
        "3.0e-3".toList],
      ["2024-01-01 00:00:01".toList, "1.1e-3".toList, "2.1e-3".toList, "3.1e-3".toList]]
      [("2024-01-01 00:00:00".toList :: List.replicate 24 ("1.5".toList))] 3
      (by decide) (List.cons_ne_nil _ _) (by decide) (by decide) (by decide)).2.1.2.1⟩

/-- C6 is refuted at N = 0: the claim covers N ≥ 0 appended records, but the
gauge writer creates its file lazily on the first append, so after zero
appends the file does not exist and the read side raises `FileNotFoundError`
instead of returning an empty record list. -/
theorem claim_C6_counterexample :
    gauge_data (appendAll (([] : List RecordV).map serRec) none) 0
      = Except.error ReadError.fileNotFound := rfl

/-- C6 amended: appending N ≥ 1 well-formed logical records through each
writer to a fresh file (the temperature writer first creating the header
line) and then reading the tail with bound N returns exactly those N records
in append order, the timestamps and every numeric value surviving the text
round trip exactly — Cell.num holds the very rational the record held.  The
temperature side holds for N ≥ 0 (its session writes the header line up
front, so the file exists and a header-only read returns zero records); the
gauge side needs N ≥ 1, because at N = 0 its file was never created and the
reader raises `FileNotFoundError`. -/
theorem claim_C6_amended (recsG recsT : List RecordV)
    (hG : wfRecs recsG = true) (hGne : recsG ≠ [])
    (hGa : ∀ p ∈ recsG, p.2.length = 3)
    (hT : wfRecs recsT = true) (hTa : ∀ p ∈ recsT, p.2.length = 24) :
    gauge_data (appendAll (recsG.map serRec) none) recsG.length
      = Except.ok (recsG.map expRecV)
    ∧ temperature_data
        (appendAll (recsT.map serRec) (some (append (header_row stdFlags) none)))
        recsT.length
      = Except.ok (recsT.map expRecV) := by
  have hmap : ∀ recs : List RecordV, wfRecs recs = true →
      (recs.map serRec).map expRow = recs.map expRecV := by
    intro recs h
    rw [List.map_map]
    apply List.map_congr_left
    intro p hp
    rw [wfRecs, List.all_eq_true] at h
    have hp2 := h p hp
    rw [Bool.and_eq_true, List.all_eq_true] at hp2
    exact expRow_serRec p hp2.1 (fun v hv => hp2.2 v hv)
  have hGlen : ∀ r ∈ recsG.map serRec, r.length = 4 := by
    intro r hr
    obtain ⟨p, hp, rfl⟩ := List.mem_map.mp hr
    rw [serRec_length, hGa p hp]
  have hT25 : (header_row stdFlags).length = 25 := by decide
  have hTlen : ∀ r ∈ recsT.map serRec, r.length = (header_row stdFlags).length := by
    intro r hr
    obtain ⟨p, hp, rfl⟩ := List.mem_map.mp hr
    rw [serRec_length, hTa p hp, hT25]
  have hGmne : recsG.map serRec ≠ [] := by
    intro h2
    exact hGne (by simpa using h2)
  constructor
  · rw [appendAll_none _ hGmne]
    rw [show recsG.length = (recsG.map serRec).length from (List.length_map _ _).symm]
    rw [gauge_data_wf (recsG.map serRec) _ (wfFile_serRec recsG hG) hGmne
      (fun r hr => le_of_eq (hGlen r hr))]
    rw [expRowPad_map_of_length _ 4 hGlen]
    rw [hmap recsG hG]
    rw [show (recsG.map serRec).length = (recsG.map expRecV).length by
      rw [List.length_map, List.length_map]]
    rw [tailN_full]
  · rw [show append (header_row stdFlags) none = csvLine (header_row stdFlags) from rfl]
    rw [appendAll_some]
    rw [show recsT.length = (recsT.map serRec).length from (List.length_map _ _).symm]
    rw [show temperature_data
          (some (csvLine (header_row stdFlags)
            ++ ((recsT.map serRec).map csvLine).flatten))
          (recsT.map serRec).length
        = Except.ok (tailN (recsT.map serRec).length
            ((recsT.map serRec).map (expRowPad (header_row stdFlags).length)))
      from temperature_data_wf _ (recsT.map serRec) (recsT.map serRec).length (by decide)
        (wfFile_serRec recsT hT) (fun r hr => le_of_eq (hTlen r hr))]
    rw [expRowPad_map_of_length _ (header_row stdFlags).length hTlen]
    rw [hmap recsT hT]
    rw [show (recsT.map serRec).length = (recsT.map expRecV).length by
      rw [List.length_map, List.length_map]]
    rw [tailN_full]

/-- Witness for the amended C6: one gauge record with three channel values
and one temperature record with twenty-four values behind the checked-in
header. -/
theorem claim_C6_amended_witness :
    gauge_data (appendAll ([((⟨2024, 1, 1, 0, 0, 0, 0⟩ : Timestamp),
        [PyNum.dec false 0 1 3, PyNum.dec false 0 2 3, PyNum.dec false 0 3 3])].map serRec)
        none) 1
      = Except.ok ([((⟨2024, 1, 1, 0, 0, 0, 0⟩ : Timestamp),
          [PyNum.dec false 0 1 3, PyNum.dec false 0 2 3,
            PyNum.dec false 0 3 3])].map expRecV)
    ∧ temperature_data
        (appendAll ([((⟨2024, 1, 1, 0, 0, 0, 0⟩ : Timestamp),
            List.replicate 24 (PyNum.dec false 1 5 1))].map serRec)
          (some (append (header_row stdFlags) none))) 1
      = Except.ok ([((⟨2024, 1, 1, 0, 0, 0, 0⟩ : Timestamp),
          List.replicate 24 (PyNum.dec false 1 5 1))].map expRecV) :=
  claim_C6_amended [((⟨2024, 1, 1, 0, 0, 0, 0⟩ : Timestamp),
      [PyNum.dec false 0 1 3, PyNum.dec false 0 2 3, PyNum.dec false 0 3 3])]
    [((⟨2024, 1, 1, 0, 0, 0, 0⟩ : Timestamp), List.replicate 24 (PyNum.dec false 1 5 1))]
    (by decide) (List.cons_ne_nil _ _) (by decide) (by decide) (by decide)

/-- C2 is refuted: on a file whose last line has no CR LF terminator, the
pandas-based reader still parses that trailing fragment as a row — here the
file holds one complete row plus a two-field truncated fragment, and the
reader returns two records, the second coming from the fragment the claim
says must be excluded: its timestamp and first channel parse, and pandas
NaN-fills the two channel columns the fragment lacks, so the record comes
back at the full four-column width as (timestamp, number, NaN, NaN). -/
theorem claim_C2_counterexample :
    (gauge_data (some scenarioFragFile) 10).toOption.isSome = true
    ∧ ((gauge_data (some scenarioFragFile) 10).toOption.getD []).length = 2
    ∧ (((gauge_data (some scenarioFragFile) 10).toOption.getD []).getD 1 []).length = 4
    ∧ (((gauge_data (some scenarioFragFile) 10).toOption.getD []).getD 1 []).getD 0 Cell.nan
      = Cell.dt ⟨2024, 1, 1, 0, 0, 1, 0⟩
    ∧ (∃ q, (((gauge_data (some scenarioFragFile) 10).toOption.getD []).getD 1 []).getD 1
        Cell.nan = Cell.num q)
    ∧ (((gauge_data (some scenarioFragFile) 10).toOption.getD []).getD 1 []).getD 2
        (Cell.num 0) = Cell.nan
    ∧ (((gauge_data (some scenarioFragFile) 10).toOption.getD []).getD 1 []).getD 3
        (Cell.num 0) = Cell.nan :=
  ⟨by decide, by decide, by decide, by decide, ⟨_, rfl⟩, by decide, by decide⟩

/-- C2 amended: the tail readers parse the whole file including a trailing
unterminated fragment, which is returned as one more record after the
complete rows, NaN-padded up to the reader's four-column width when the
fragment is missing fields; unterminated input is excluded only on the write
side of the gauge pipeline (handle_buffer), never by the readers. -/
theorem claim_C2_amended (recs : List (List (List Char))) (frag : List (List Char))
    (n : ℕ) (h : wfFile recs = true) (hf : wfRow frag = true)
    (har : ∀ r ∈ recs, r.length ≤ 4) (hfa : frag.length ≤ 4) :
    gauge_data (some ((recs.map csvLine).flatten ++ csvBody frag)) n
      = Except.ok (tailN n ((recs ++ [frag]).map (expRowPad 4))) := by
  have hall := wfFile_all recs h
  have hallx : ∀ r ∈ recs ++ [frag], wfRow r = true := by
    intro r hr
    rcases List.mem_append.mp hr with h1 | h2
    · exact hall r h1
    · have : r = frag := by simpa using h2
      rw [this]
      exact hf
  have harx : ∀ r ∈ recs ++ [frag], r.length ≤ 4 := by
    intro r hr
    rcases List.mem_append.mp hr with h1 | h2
    · exact har r h1
    · have : r = frag := by simpa using h2
      rw [this]
      exact hfa
  have hfb : hasCRLF (csvBody frag) = false := hasCRLF_csvBody frag (wfRow_clean frag hf)
  have hfne : csvBody frag ≠ [] := by
    obtain ⟨f0, rest, hreq, _, _, hne, _⟩ := wfRow_shape frag hf
    rw [hreq]
    exact csvBody_ne_nil f0 rest hne
  have hdl : dataLines ((recs.map csvLine).flatten ++ csvBody frag)
      = (recs ++ [frag]).map csvBody := by
    rw [dataLines_csv recs (csvBody frag) hall hfb, if_neg hfne]
    simp [List.map_append]
  exact gauge_data_of_lines _ (recs ++ [frag]) n hdl hallx (by simp) harx

/-- Witness for the amended C2 at the scenario shape: one complete row and a
two-field truncated fragment, returned NaN-padded to width four. -/
theorem claim_C2_amended_witness :
    gauge_data (some (([["2024-01-01 00:00:00".toList, "1.0e-3".toList, "2.0e-3".toList,
          "3.0e-3".toList]].map csvLine).flatten
        ++ csvBody ["2024-01-01 00:00:01".toList, "1.1".toList])) 10
      = Except.ok (tailN 10 (([["2024-01-01 00:00:00".toList, "1.0e-3".toList,
            "2.0e-3".toList, "3.0e-3".toList]]
          ++ [["2024-01-01 00:00:01".toList, "1.1".toList]]).map (expRowPad 4))) :=
  claim_C2_amended [["2024-01-01 00:00:00".toList, "1.0e-3".toList, "2.0e-3".toList,
      "3.0e-3".toList]]
    ["2024-01-01 00:00:01".toList, "1.1".toList] 10 (by decide) (by decide)
    (by decide) (by decide)

/-- C8 is refuted: the reader does not raise, but a non-numeric field is not
replaced by a NaN sentinel — the cell comes back as the raw text, and the
same column's values in the other, well-formed rows come back as raw text
too, so neither "field marked not-a-number" nor "all other fields and rows
parsed normally" holds. -/
theorem claim_C8_counterexample :
    (((gauge_data (some scenarioNaNFile) 10).toOption.getD []).getD 1 []).getD 1 (Cell.num 0)
      = Cell.str ("NaNtext".toList)
    ∧ (((gauge_data (some scenarioNaNFile) 10).toOption.getD []).getD 0 []).getD 1
        (Cell.num 0) = Cell.str ("1.0e-3".toList)
    ∧ Cell.str ("NaNtext".toList) ≠ Cell.nan :=
  ⟨by decide, by decide, by decide⟩

/-- C8 amended: the reader never raises; an empty field in an otherwise
numeric column becomes the NaN sentinel; a non-numeric text field instead
makes pandas keep its whole column as text (every row's value in that column
comes back as a string), while the remaining columns parse normally. -/
theorem claim_C8_amended :
    (gauge_data (some scenarioNaNFile) 10).toOption.isSome = true
    ∧ ((gauge_data (some scenarioNaNFile) 10).toOption.getD []).length = 3
    ∧ (((gauge_data (some scenarioNaNFile) 10).toOption.getD []).getD 0 []).getD 1
        (Cell.num 0) = Cell.str ("1.0e-3".toList)
    ∧ (((gauge_data (some scenarioNaNFile) 10).toOption.getD []).getD 1 []).getD 1
        (Cell.num 0) = Cell.str ("NaNtext".toList)
    ∧ (((gauge_data (some scenarioNaNFile) 10).toOption.getD []).getD 2 []).getD 1
        (Cell.num 0) = Cell.str ("1.3e-3".toList)
    ∧ (((gauge_data (some scenarioNaNFile) 10).toOption.getD []).getD 2 []).getD 2
        (Cell.str []) = Cell.nan
    ∧ (∃ q, (((gauge_data (some scenarioNaNFile) 10).toOption.getD []).getD 0 []).getD 2
        (Cell.str []) = Cell.num q)
    ∧ (∃ q, (((gauge_data (some scenarioNaNFile) 10).toOption.getD []).getD 1 []).getD 2
        (Cell.str []) = Cell.num q)
    ∧ (∃ q, (((gauge_data (some scenarioNaNFile) 10).toOption.getD []).getD 1 []).getD 3
        (Cell.str []) = Cell.num q)
    ∧ (((gauge_data (some scenarioNaNFile) 10).toOption.getD []).getD 1 []).getD 0 Cell.nan
      = Cell.dt ⟨2024, 1, 1, 0, 0, 2, 0⟩ :=
  ⟨by decide, by decide, by decide, by decide, by decide, by decide, ⟨_, rfl⟩, ⟨_, rfl⟩,
    ⟨_, rfl⟩, by decide⟩

/-- C10: when the buffer contains a CR LF, handle_buffer returns the
terminator-delimited segments in order (re-terminating each line and
appending the leftover reconstructs the buffer) with the trailing
unterminated fragment as leftover, which contains no CR LF; when the buffer
contains none, the entire unterminated buffer is returned as a single
"complete line" with empty leftover — the framing guarantee therefore rests
on the caller's `b'\r\n' in buffer` guard. -/
theorem claim_C10 (buffer : List Char) :
    (hasCRLF buffer = true →
      ((handle_buffer buffer).1.map (fun l => l ++ crlf)).flatten
          ++ (handle_buffer buffer).2 = buffer
      ∧ hasCRLF (handle_buffer buffer).2 = false
      ∧ ∀ l ∈ (handle_buffer buffer).1, hasCRLF l = false)
    ∧ (hasCRLF buffer = false → handle_buffer buffer = ([buffer], [])) := by
  constructor
  · intro h
    have hlen := splitCRLF_length_ge_two buffer h
    have hhb : handle_buffer buffer
        = ((splitCRLF buffer).dropLast, (splitCRLF buffer).getLastD []) := by
      show (if (splitCRLF buffer).length = 1 then (splitCRLF buffer, ([] : List Char))
          else ((splitCRLF buffer).dropLast, (splitCRLF buffer).getLastD [])) = _
      rw [if_neg (by omega)]
    refine ⟨?_, ?_, ?_⟩
    · rw [hhb]
      have h1 := joinCRLF_eq_dropLast_getLast (splitCRLF buffer) (splitCRLF_ne_nil buffer)
      show ((splitCRLF buffer).dropLast.map (fun x => x ++ crlf)).flatten
          ++ (splitCRLF buffer).getLastD [] = buffer
      rw [← h1, joinCRLF_splitCRLF]
    · rw [hhb]
      exact hasCRLF_of_mem_splitCRLF buffer _ (getLastD_mem _ _ (splitCRLF_ne_nil buffer))
    · intro l hl
      rw [hhb] at hl
      exact hasCRLF_of_mem_splitCRLF buffer l (List.dropLast_subset _ hl)
  · intro h
    show (if (splitCRLF buffer).length = 1 then (splitCRLF buffer, ([] : List Char))
        else ((splitCRLF buffer).dropLast, (splitCRLF buffer).getLastD []))
      = ([buffer], [])
    rw [splitCRLF_no_sep buffer h]
    rfl

/-- Witness for C10 at a buffer holding two complete lines and a fragment. -/
theorem claim_C10_witness :
    ((handle_buffer ("ab\r\ncd\r\nef".toList)).1.map (fun l => l ++ crlf)).flatten
        ++ (handle_buffer ("ab\r\ncd\r\nef".toList)).2 = "ab\r\ncd\r\nef".toList
    ∧ hasCRLF (handle_buffer ("ab\r\ncd\r\nef".toList)).2 = false :=
  ⟨((claim_C10 ("ab\r\ncd\r\nef".toList)).1 (by decide)).1,
   ((claim_C10 ("ab\r\ncd\r\nef".toList)).1 (by decide)).2.1⟩

end XcfMonitoring
